import Mathlib

/-!
# Verification of the Action Replay cheat-code core

Shallow embedding of `Source/Core/Core/ActionReplay.cpp`: the bit-packed
address decoder, the guest-memory adapter, the per-code interpreter
(`RunCodeLocked`), the per-tick executor pass, the code store operations and
the textual code listing load/save routines.  Guest memory is a byte map
`Nat → Nat`; 32-bit machine arithmetic is modelled with explicit `% 2^32`.
Logging (`LogInfo`) is modelled in writer style: every interpreter function
returns, next to its result, the list of format strings it would log; the
internal-log gating flags are applied once at the `RunAllActive` wrapper,
which is faithful because the flags are not mutated during a tick.
-/

namespace AR

/-- Guest memory: a byte for every address.  `PowerPC::HostWrite_U8`
normalises the stored value to a byte and the address to 32 bits. -/
abbrev Mem := Nat → Nat

/-- Collected log output (the `LogInfo` format strings, in order). -/
abbrev Log := List String

/-- One u32 modulus, written out. -/
def U32M : Nat := 4294967296

/-- Source struct `AREntry`: one packed instruction,
`(cmd_addr, value)`. -/
structure AREntry where
  cmd_addr : Nat
  value : Nat
deriving DecidableEq, Repr

/-- Characters of a text line (the parser works on these). -/
abbrev Str := List Char

/-- Source struct `ARCode`. -/
structure ARCode where
  name : Str
  active : Bool
  user_defined : Bool
  ops : List AREntry
deriving DecidableEq, Repr

/-! ## Address decoder (source struct `ARAddr`)

`cmd_addr` decomposes as bit fields `gcaddr : 25, size : 2, type : 3,
subtype : 2`.  Bit-field extraction is written with `/` and `%`. -/

/-- Bits 0..24 of the command word. -/
def gcaddr (a : Nat) : Nat := a % 0x2000000

/-- Bits 25..26: data width selector. -/
def arSize (a : Nat) : Nat := a / 0x2000000 % 4

/-- Bits 27..29: opcode family. -/
def arType (a : Nat) : Nat := a / 0x8000000 % 8

/-- Bits 30..31: family-specific subtype. -/
def arSubtype (a : Nat) : Nat := a / 0x40000000 % 4

/-- Source `ARAddr::GCAddress`, `gcaddr | 0x80000000`.  Because
`gcaddr a < 2^25` the bitwise or is the plain sum. -/
def GCAddress (a : Nat) : Nat := 0x80000000 + gcaddr a

/-! ## Guest memory adapter (`PowerPC::HostRead/Write`), big-endian. -/

/-- `PowerPC::HostWrite_U8`. -/
def HostWrite_U8 (v a : Nat) (m : Mem) : Mem :=
  fun x => if x = a % U32M then v % 256 else m x

/-- `PowerPC::HostRead_U8`. -/
def HostRead_U8 (a : Nat) (m : Mem) : Nat := m (a % U32M) % 256

/-- `PowerPC::HostWrite_U16`, big-endian byte pair. -/
def HostWrite_U16 (v a : Nat) (m : Mem) : Mem :=
  HostWrite_U8 v (a + 1) (HostWrite_U8 (v >>> 8) a m)

/-- `PowerPC::HostRead_U16`, big-endian byte pair. -/
def HostRead_U16 (a : Nat) (m : Mem) : Nat :=
  HostRead_U8 a m * 256 + HostRead_U8 (a + 1) m

/-- `PowerPC::HostWrite_U32`, big-endian byte quad. -/
def HostWrite_U32 (v a : Nat) (m : Mem) : Mem :=
  HostWrite_U8 v (a + 3)
    (HostWrite_U8 (v >>> 8) (a + 2)
      (HostWrite_U8 (v >>> 16) (a + 1)
        (HostWrite_U8 (v >>> 24) a m)))

/-- `PowerPC::HostRead_U32`, big-endian byte quad. -/
def HostRead_U32 (a : Nat) (m : Mem) : Nat :=
  HostRead_U8 a m * 16777216 + HostRead_U8 (a + 1) m * 65536 +
    HostRead_U8 (a + 2) m * 256 + HostRead_U8 (a + 3) m

/-- Source `mem_check`. -/
def mem_check (address : Nat) : Bool :=
  decide (0x80000000 ≤ address ∧ address < 0x81800000)

/-! ## Normal-code subtypes -/

/-- Byte-fill loop of `Subtype_RamWriteAndFill`, size 8: the source writes
`data & 0xFF` at `new_addr + i` for `i = 0 ..= repeat`; here the loop counts
the `repeat + 1` writes down while the address moves up. -/
def fill8 (v : Nat) : Nat → Nat → Mem → Mem × Log
  | 0, _, m => (m, [])
  | n + 1, a, m =>
    let r := fill8 v n (a + 1) (HostWrite_U8 v a m)
    (r.1, "Wrote %08x to address %08x" :: r.2)

/-- Half-word fill loop of `Subtype_RamWriteAndFill`, size 16 (stride 2). -/
def fill16 (v : Nat) : Nat → Nat → Mem → Mem × Log
  | 0, _, m => (m, [])
  | n + 1, a, m =>
    let r := fill16 v n (a + 2) (HostWrite_U16 v a m)
    (r.1, "Wrote %08x to address %08x" :: r.2)

/-- Source `Subtype_RamWriteAndFill`.  Returns the success flag, the
updated memory and the log output. -/
def Subtype_RamWriteAndFill (a d : Nat) (m : Mem) : (Bool × Mem) × Log :=
  let na := GCAddress a
  let pre : Log := ["Hardware Address: %08x", "Size: %08x"]
  match arSize a with
  | 0 =>
    let r := fill8 (d &&& 0xFF) (d >>> 8 + 1) na m
    ((true, r.1), pre ++ ["8-bit Write", "--------"] ++ r.2 ++ ["--------"])
  | 1 =>
    let r := fill16 (d &&& 0xFFFF) (d >>> 16 + 1) na m
    ((true, r.1), pre ++ ["16-bit Write", "--------"] ++ r.2 ++ ["--------"])
  | 2 =>
    ((true, HostWrite_U32 d na m),
      pre ++ ["32-bit Write", "--------", "Wrote %08x to address %08x", "--------"])
  | 3 =>
    ((true, HostWrite_U32 d na m),
      pre ++ ["32-bit Write", "--------", "Wrote %08x to address %08x", "--------"])
  | _ + 4 => ((false, m), pre ++ ["Bad Size"])

/-- Source `Subtype_WriteToPointer`. -/
def Subtype_WriteToPointer (a d : Nat) (m : Mem) : (Bool × Mem) × Log :=
  let na := GCAddress a
  let ptr := HostRead_U32 na m
  let pre : Log := ["Hardware Address: %08x", "Size: %08x"]
  match arSize a with
  | 0 =>
    ((true, HostWrite_U8 (d &&& 0xFF) (ptr + (d >>> 8)) m),
      pre ++ ["Write 8-bit to pointer", "--------", "Pointer: %08x", "Byte: %08x",
        "Offset: %08x", "Wrote %08x to address %08x", "--------"])
  | 1 =>
    ((true, HostWrite_U16 (d &&& 0xFFFF) (ptr + ((d >>> 16) <<< 1)) m),
      pre ++ ["Write 16-bit to pointer", "--------", "Pointer: %08x", "Byte: %08x",
        "Offset: %08x", "Wrote %08x to address %08x", "--------"])
  | 2 =>
    ((true, HostWrite_U32 d ptr m),
      pre ++ ["Write 32-bit to pointer", "--------", "Wrote %08x to address %08x", "--------"])
  | 3 =>
    ((true, HostWrite_U32 d ptr m),
      pre ++ ["Write 32-bit to pointer", "--------", "Wrote %08x to address %08x", "--------"])
  | _ + 4 => ((false, m), pre ++ ["Bad Size"])

/-- Source `Subtype_AddCode`.  The `DATATYPE_32BIT_FLOAT` case reinterprets
the u32 as an IEEE-754 single, adds `float(data)` and reinterprets back;
that bit-level float operation is abstracted as the parameter `fa`. -/
def Subtype_AddCode (fa : Nat → Nat → Nat) (a d : Nat) (m : Mem) : (Bool × Mem) × Log :=
  let na := GCAddress a
  let pre : Log := ["Hardware Address: %08x", "Size: %08x"]
  match arSize a with
  | 0 =>
    ((true, HostWrite_U8 (HostRead_U8 na m + d) na m),
      pre ++ ["8-bit Add", "--------", "Wrote %02x to address %08x", "--------"])
  | 1 =>
    ((true, HostWrite_U16 (HostRead_U16 na m + d) na m),
      pre ++ ["16-bit Add", "--------", "Wrote %04x to address %08x", "--------"])
  | 2 =>
    ((true, HostWrite_U32 (HostRead_U32 na m + d) na m),
      pre ++ ["32-bit Add", "--------", "Wrote %08x to address %08x", "--------"])
  | 3 =>
    ((true, HostWrite_U32 (fa (HostRead_U32 na m) d) na m),
      pre ++ ["32-bit floating Add", "--------", "Old Value %08x", "Increment %08x",
        "New value %08x", "--------"])
  | _ + 4 => ((false, m), pre ++ ["Bad Size"])

/-- Source `Subtype_MasterCodeAndWriteToCCXXXXXX`: unconditionally reports
and fails. -/
def Subtype_MasterCodeAndWriteToCCXXXXXX (m : Mem) : (Bool × Mem) × Log :=
  ((false, m), ["Master Code and Write To CCXXXXXX not implemented"])

/-! ## Zero-code composites -/

/-- A 16-bit value sign-extended into the u32 range (`s16` promoted and
added to a `u32` in the source). -/
def s16ext (x : Nat) : Nat := if x < 0x8000 then x else 0xFFFF0000 + x

/-- An 8-bit value sign-extended into the u32 range. -/
def s8ext (x : Nat) : Nat := if x < 0x80 then x else 0xFFFFFF00 + x

/-- 8-bit loop of `ZeroCode_FillAndSlide`: write, then advance the cursor
by the sign-extended increment and the value by `val_incr`, with u32 wrap. -/
def fsLoop8 : Nat → Nat → Nat → Nat → Nat → Mem → Mem × Log
  | 0, _, _, _, _, m => (m, [])
  | n + 1, val, curr, ai, vi, m =>
    let r := fsLoop8 n ((val + s8ext vi) % U32M) ((curr + s16ext ai) % U32M) ai vi
      (HostWrite_U8 (val &&& 0xFF) curr m)
    (r.1, "Write %08x to address %08x" :: r.2)

/-- 16-bit loop of `ZeroCode_FillAndSlide` (cursor stride `addr_incr * 2`). -/
def fsLoop16 : Nat → Nat → Nat → Nat → Nat → Mem → Mem × Log
  | 0, _, _, _, _, m => (m, [])
  | n + 1, val, curr, ai, vi, m =>
    let r := fsLoop16 n ((val + s8ext vi) % U32M) ((curr + 2 * s16ext ai) % U32M) ai vi
      (HostWrite_U16 (val &&& 0xFFFF) curr m)
    (r.1, "Write %08x to address %08x" :: r.2)

/-- 32-bit loop of `ZeroCode_FillAndSlide` (cursor stride `addr_incr * 4`). -/
def fsLoop32 : Nat → Nat → Nat → Nat → Nat → Mem → Mem × Log
  | 0, _, _, _, _, m => (m, [])
  | n + 1, val, curr, ai, vi, m =>
    let r := fsLoop32 n ((val + s8ext vi) % U32M) ((curr + 4 * s16ext ai) % U32M) ai vi
      (HostWrite_U32 val curr m)
    (r.1, "Write %08x to address %08x" :: r.2)

/-- Source `ZeroCode_FillAndSlide`.  `val_last` supplies base address and
size; the follow-up word `a` is the start value, `d` packs
`addr_incr : s16`, `write_num : u8`, `val_incr : s8`. -/
def ZeroCode_FillAndSlide (vl a d : Nat) (m : Mem) : (Bool × Mem) × Log :=
  let na := GCAddress vl
  let ai := d &&& 0xFFFF
  let vi := d >>> 24 % 0x100
  let wn := (d &&& 0xFF0000) >>> 16
  let pre : Log := ["Current Hardware Address: %08x", "Size: %08x", "Write Num: %08x",
    "Address Increment: %i", "Value Increment: %i"]
  match arSize vl with
  | 0 =>
    let r := fsLoop8 wn a na ai vi m
    ((true, r.1), pre ++ ["8-bit Write", "--------"] ++ r.2 ++ ["--------"])
  | 1 =>
    let r := fsLoop16 wn a na ai vi m
    ((true, r.1), pre ++ ["16-bit Write", "--------"] ++ r.2 ++ ["--------"])
  | 2 =>
    let r := fsLoop32 wn a na ai vi m
    ((true, r.1), pre ++ ["32-bit Write", "--------"] ++ r.2 ++ ["--------"])
  | _ + 3 => ((false, m), pre ++ ["Bad Size"])

/-- Byte-copy loop of `ZeroCode_MemoryCopy` (`HostRead_U8` from the source
cursor, `HostWrite_U8` at the destination cursor, ascending). -/
def copyLoop : Nat → Nat → Nat → Mem → Mem × Log
  | 0, _, _, m => (m, [])
  | n + 1, src, dest, m =>
    let r := copyLoop n (src + 1) (dest + 1) (HostWrite_U8 (HostRead_U8 src m) dest m)
    (r.1, "Wrote %08x to address %08x" :: r.2)

/-- Source `ZeroCode_MemoryCopy`.  `dest = val_last & ~0x06000000`
(the u32 complement of `0x06000000` is `0xF9FFFFFF`); the byte count is the
`u8` truncation of `data & 0x7FFF`. -/
def ZeroCode_MemoryCopy (vl a d : Nat) (m : Mem) : (Bool × Mem) × Log :=
  let dest := vl &&& 0xF9FFFFFF
  let src := GCAddress a
  let n := (d &&& 0x7FFF) % 0x100
  let pre : Log := ["Dest Address: %08x", "Src Address: %08x", "Size: %08x"]
  if d &&& 0xFF0000 = 0 then
    if d >>> 24 ≠ 0 then
      let r := copyLoop n (HostRead_U32 src m) (HostRead_U32 dest m) m
      ((true, r.1),
        pre ++ ["Memory Copy With Pointers Support", "--------",
          "Resolved Dest Address to: %08x", "Resolved Src Address to: %08x"] ++
          r.2 ++ ["--------"])
    else
      let r := copyLoop n src dest m
      ((true, r.1),
        pre ++ ["Memory Copy Without Pointers Support", "--------"] ++ r.2 ++ ["--------"])
  else ((false, m), pre ++ ["Bad Value"])

/-! ## Normal and conditional dispatch -/

/-- Source `NormalCode`: dispatch on the subtype field. -/
def NormalCode (fa : Nat → Nat → Nat) (a d : Nat) (m : Mem) : (Bool × Mem) × Log :=
  match arSubtype a with
  | 0 =>
    let r := Subtype_RamWriteAndFill a d m
    (r.1, "Doing Ram Write And Fill" :: r.2)
  | 1 =>
    let r := Subtype_WriteToPointer a d m
    (r.1, "Doing Write To Pointer" :: r.2)
  | 2 =>
    let r := Subtype_AddCode fa a d m
    (r.1, "Doing Add Code" :: r.2)
  | 3 =>
    let r := Subtype_MasterCodeAndWriteToCCXXXXXX m
    (r.1, "Doing Master Code And Write to CCXXXXXX (ncode not supported)" :: r.2)
  | _ + 4 => ((false, m), ["Bad Subtype"])

/-- The value of a u32 read as a signed 32-bit integer. -/
def toS32 (x : Nat) : Int :=
  if x % U32M < 0x80000000 then (x % U32M : Int) else (x % U32M : Int) - (U32M : Int)

/-- Source `CompareValues`.  The unknown-type arm reports and returns
`false` (which the caller treats as a failed comparison, not an error). -/
def CompareValues (v1 v2 t : Nat) : Bool × Log :=
  match t with
  | 1 => (decide (v1 = v2), ["Type 1: If Equal"])
  | 2 => (decide (¬v1 = v2), ["Type 2: If Not Equal"])
  | 3 => (decide (toS32 v1 < toS32 v2), ["Type 3: If Less Than (Signed)"])
  | 4 => (decide (toS32 v2 < toS32 v1), ["Type 4: If Greater Than (Signed)"])
  | 5 => (decide (v1 < v2), ["Type 5: If Less Than (Unsigned)"])
  | 6 => (decide (v2 < v1), ["Type 6: If Greater Than (Unsigned)"])
  | 7 => (decide (¬v1 &&& v2 = 0), ["Type 7: If And"])
  | 0 => (false, ["Unknown Compare type"])
  | _ + 8 => (false, ["Unknown Compare type"])

/-- The comparison computed by `ConditionalCode` before the skip logic:
operand read at the effective address with the selected width, against the
operand word masked to that width. -/
def condCheck (a d : Nat) (m : Mem) : Bool :=
  let na := GCAddress a
  match arSize a with
  | 0 => (CompareValues (HostRead_U8 na m) (d &&& 0xFF) (arType a)).1
  | 1 => (CompareValues (HostRead_U16 na m) (d &&& 0xFFFF) (arType a)).1
  | 2 => (CompareValues (HostRead_U32 na m) d (arType a)).1
  | 3 => (CompareValues (HostRead_U32 na m) d (arType a)).1
  | _ + 4 => false

/-- Source `ConditionalCode`: on a failed comparison the skip counter is set
from the subtype (`0 ↦ 1`, `1 ↦ 2`, `2 ↦ -2`, `3 ↦ -3`); on success it is
left unchanged.  The boolean is the function's own success flag. -/
def ConditionalCode (a d : Nat) (sk : Int) (m : Mem) : (Bool × Int) × Log :=
  let na := GCAddress a
  let res : Option (Bool × Log) :=
    match arSize a with
    | 0 => some (CompareValues (HostRead_U8 na m) (d &&& 0xFF) (arType a))
    | 1 => some (CompareValues (HostRead_U16 na m) (d &&& 0xFFFF) (arType a))
    | 2 => some (CompareValues (HostRead_U32 na m) d (arType a))
    | 3 => some (CompareValues (HostRead_U32 na m) d (arType a))
    | _ + 4 => none
  match res with
  | none => ((false, sk), ["Size: %08x", "Hardware Address: %08x", "Bad Size"])
  | some (b, l) =>
    let pre := ["Size: %08x", "Hardware Address: %08x"] ++ l
    if b then ((true, sk), pre)
    else
      match arSubtype a with
      | 0 => ((true, 1), pre)
      | 1 => ((true, 2), pre)
      | 2 => ((true, -2), pre)
      | 3 => ((true, -3), pre)
      | _ + 4 => ((false, sk), pre ++ ["Bad Subtype"])

/-! ## The per-code interpreter (`RunCodeLocked`) -/

/-- Main loop of `RunCodeLocked` over the instruction list, carrying the
pending fill-and-slide flag, the pending memory-copy flag, the skip counter
and `val_last`.  Returns the success flag and the final memory. -/
def RunCodeLoop (fa : Nat → Nat → Nat) :
    List AREntry → Bool → Bool → Int → Nat → Mem → (Bool × Mem) × Log
  | [], _, _, _, _, m => ((true, m), [])
  | e :: rest, doFill, doCopy, skip, vl, m =>
    let a := e.cmd_addr
    let d := e.value
    if skip ≠ 0 then
      if 0 < skip then
        let r := RunCodeLoop fa rest doFill doCopy (skip - 1) vl m
        (r.1, "Line skipped" :: r.2)
      else if skip = -3 then ((true, m), ["All Lines skipped"])
      else if skip = -2 then
        let r := RunCodeLoop fa rest doFill doCopy
          (if a = 0 ∧ d = 0x40000000 then 0 else skip) vl m
        (r.1, "Line skipped" :: r.2)
      else RunCodeLoop fa rest doFill doCopy skip vl m
    else if doFill then
      let r := ZeroCode_FillAndSlide vl a d m
      if r.1.1 then
        let r2 := RunCodeLoop fa rest false doCopy skip vl r.1.2
        (r2.1, "--- Running Code: %08x %08x ---" :: "Doing Fill And Slide" :: r.2 ++ r2.2)
      else
        ((false, r.1.2), "--- Running Code: %08x %08x ---" :: "Doing Fill And Slide" :: r.2)
    else if doCopy then
      let r := ZeroCode_MemoryCopy vl a d m
      if r.1.1 then
        let r2 := RunCodeLoop fa rest doFill false skip vl r.1.2
        (r2.1, "--- Running Code: %08x %08x ---" :: "Doing Memory Copy" :: r.2 ++ r2.2)
      else
        ((false, r.1.2), "--- Running Code: %08x %08x ---" :: "Doing Memory Copy" :: r.2)
    else if 0x2000 ≤ a ∧ a < 0x3000 then
      ((false, m),
        ["--- Running Code: %08x %08x ---",
          "This action replay simulator does not support codes that modify Action Replay itself."])
    else if a = 0 then
      let pre : Log := ["--- Running Code: %08x %08x ---", "Doing Zero Code %08x"]
      match d >>> 29 with
      | 0 => ((true, m), pre ++ ["ZCode: End Of Codes"])
      | 2 =>
        let r := RunCodeLoop fa rest doFill doCopy skip vl m
        (r.1, pre ++ ["ZCode: Normal execution of codes"] ++ r.2)
      | 3 => ((false, m), pre ++ ["Zero 3 code not supported"])
      | 4 =>
        if (d >>> 25) &&& 0x03 = 3 then
          let r := RunCodeLoop fa rest doFill true skip d m
          (r.1, pre ++ ["ZCode: Memory Copy"] ++ r.2)
        else
          let r := RunCodeLoop fa rest true doCopy skip d m
          (r.1, pre ++ ["ZCode: Fill And Slide"] ++ r.2)
      | 1 => ((false, m), pre ++ ["Zero code unknown to Dolphin: %08x"])
      | _ + 5 => ((false, m), pre ++ ["Zero code unknown to Dolphin: %08x"])
    else if arType a = 0 then
      let r := NormalCode fa a d m
      if r.1.1 then
        let r2 := RunCodeLoop fa rest doFill doCopy skip vl r.1.2
        (r2.1, "--- Running Code: %08x %08x ---" :: "Doing Normal Code %08x" :: r.2 ++ r2.2)
      else
        ((false, r.1.2), "--- Running Code: %08x %08x ---" :: "Doing Normal Code %08x" :: r.2)
    else
      let r := ConditionalCode a d skip m
      if r.1.1 then
        let r2 := RunCodeLoop fa rest doFill doCopy r.1.2 vl m
        (r2.1, "--- Running Code: %08x %08x ---" ::
          "This Normal Code is a Conditional Code" :: r.2 ++ r2.2)
      else
        ((false, m), "--- Running Code: %08x %08x ---" ::
          "This Normal Code is a Conditional Code" :: r.2)

/-- Source `RunCodeLocked`: run one code's instruction list from the empty
interpreter state. -/
def RunCodeLocked (fa : Nat → Nat → Nat) (c : ARCode) (m : Mem) : (Bool × Mem) × Log :=
  let r := RunCodeLoop fa c.ops false false 0 0 m
  (r.1, "Code Name: %s" :: "Number of codes: %zu" :: r.2)

/-- Core of `RunAllActive` (the `std::remove_if` pass at the end): run the
active codes in order against the threaded memory, dropping every code whose
run failed and keeping the survivors in order. -/
def runActiveList (fa : Nat → Nat → Nat) : List ARCode → Mem → (List ARCode × Mem) × Log
  | [], m => (([], m), [])
  | c :: cs, m =>
    let r := RunCodeLocked fa c m
    let r2 := runActiveList fa cs r.1.2
    ((if r.1.1 then c :: r2.1.1 else r2.1.1, r2.1.2), r.2 ++ "\n" :: r2.2)

/-- Process-wide mutable context of the interpreter besides the code store:
guest memory, the internal log and the two logging flags. -/
structure Env where
  mem : Mem
  log : List String
  useLog : Bool
  disableLog : Bool

/-- The per-tick pass of `RunAllActive` at the `Env` level: the collected
output lands in the internal log only when `s_disable_logging` is unset and
`s_use_internal_log` is set, and `s_disable_logging` is latched afterwards. -/
def RunAllActivePass (fa : Nat → Nat → Nat) (codes : List ARCode) (e : Env) :
    List ARCode × Env :=
  let r := runActiveList fa codes e.mem
  (r.1.1,
    { mem := r.1.2
      log := e.log ++ (if !e.disableLog && e.useLog then r.2 else [])
      useLog := e.useLog
      disableLog := true })

/-- Source `ApplyCodes`: gated by `bEnableCheats`, it replaces the store
with the active members of the new list, in order. -/
def ApplyCodes (enabled : Bool) (codes store : List ARCode) : List ARCode :=
  if enabled then codes.filter (fun c => c.active) else store

/-- Source `AddCode`: gated by `bEnableCheats`, it appends the code only
when its active flag is set. -/
def AddCode (enabled : Bool) (c : ARCode) (store : List ARCode) : List ARCode :=
  if enabled then (if c.active then store ++ [c] else store) else store

/-! ## Code listing load and save (`LoadCodes` / `SaveCodes`)

The helpers `SplitString`, `TryParse`, `StringFromFormat` and the `IniFile`
section accessors live outside this repository; they are modelled from the
spec (see the individual doc comments).  Text lines are `List Char`. -/

/-- Modelled from the spec: `Common::SplitString` splits on the delimiter
with `std::getline` semantics; every delimiter ends a piece, and a final
delimiter does not open a trailing empty piece. -/
def splitCh (dl : Char) : Str → List Str
  | [] => [[]]
  | c :: cs =>
    match splitCh dl cs with
    | [] => [[]]
    | p :: ps => if c = dl then [] :: p :: ps else (c :: p) :: ps

/-- Modelled from the spec: the `std::getline` loop of `SplitString` yields
no pieces for the empty string and drops the piece opened by a final
delimiter. -/
def SplitString (dl : Char) (s : Str) : List Str :=
  if s = [] then []
  else if s.getLast? = some dl then (splitCh dl s).dropLast else splitCh dl s

/-- Hexadecimal digit value; `0` on non-digits (guarded by
`isHexDigitCh` at every use). -/
def hexVal (c : Char) : Nat :=
  match c with
  | '0' => 0 | '1' => 1 | '2' => 2 | '3' => 3 | '4' => 4
  | '5' => 5 | '6' => 6 | '7' => 7 | '8' => 8 | '9' => 9
  | 'a' => 10 | 'b' => 11 | 'c' => 12 | 'd' => 13 | 'e' => 14 | 'f' => 15
  | 'A' => 10 | 'B' => 11 | 'C' => 12 | 'D' => 13 | 'E' => 14 | 'F' => 15
  | _ => 0

/-- Case-insensitive hexadecimal digit test. -/
def isHexDigitCh (c : Char) : Bool :=
  match c with
  | '0' | '1' | '2' | '3' | '4' | '5' | '6' | '7' | '8' | '9' => true
  | 'a' | 'b' | 'c' | 'd' | 'e' | 'f' => true
  | 'A' | 'B' | 'C' | 'D' | 'E' | 'F' => true
  | _ => false

/-- Modelled from the spec: `TryParse("0x" + piece, &out)` over a `u32`
succeeds exactly on a non-empty all-hex token (case-insensitive) and yields
its value. -/
def parseHex (s : Str) : Option Nat :=
  if s ≠ [] ∧ s.all isHexDigitCh then
    some (s.foldl (fun acc c => acc * 16 + hexVal c) 0)
  else none

/-- Uppercase hexadecimal digit of a value below 16. -/
def toHexCh (n : Nat) : Char :=
  match n with
  | 0 => '0' | 1 => '1' | 2 => '2' | 3 => '3' | 4 => '4'
  | 5 => '5' | 6 => '6' | 7 => '7' | 8 => '8' | 9 => '9'
  | 10 => 'A' | 11 => 'B' | 12 => 'C' | 13 => 'D' | 14 => 'E'
  | _ => 'F'

/-- The low `k` hex digits of `n`, most significant first (the `%0kX`
format). -/
def toHex : Nat → Nat → Str
  | 0, _ => []
  | k + 1, n => toHex k (n / 16) ++ [toHexCh (n % 16)]

/-- `StringFromFormat("%08X %08X", op.cmd_addr, op.value)`, the line
`SaveCodes` writes for one instruction. -/
def renderOp (op : AREntry) : Str := toHex 8 op.cmd_addr ++ ' ' :: toHex 8 op.value

/-- Modelled from the spec: a game ini restricted to the two sections the
Action Replay code reads and writes, each a list of lines. -/
structure IniFile where
  ar : List Str
  arEnabled : List Str
deriving DecidableEq

/-- Names enabled in an `ActionReplay_Enabled` section: the lines starting
with `$`, with the marker stripped. -/
def enabledNames (ls : List Str) : List Str :=
  ls.filterMap fun l =>
    match l with
    | '$' :: rest => some rest
    | _ => none

/-- Parse state of the `LoadCodes` line loop: the code under construction,
the buffered encrypted blocks and the committed codes. -/
structure PSt where
  cur : ARCode
  enc : List Str
  codes : List ARCode
deriving DecidableEq

/-- Initial parse state (`ARCode current_code` default-constructed). -/
def initPSt : PSt := ⟨⟨[], false, false, []⟩, [], []⟩

/-- One line of the `LoadCodes` loop over an `ActionReplay` section.
Returns the new state and the `PanicAlertT` messages this line raised.
`decrypt` stands for `DecryptARCode`, `en` for the enabled-name set, `ud`
for whether the section comes from the local (user) ini. -/
def processARLine (decrypt : List Str → List AREntry) (en : List Str) (ud : Bool)
    (st : PSt) (line : Str) : PSt × List String :=
  match line with
  | [] => (st, [])
  | c :: rest =>
    if c = '$' then
      let st1 :=
        if st.cur.ops ≠ [] then
          { st with codes := st.codes ++ [st.cur], cur := { st.cur with ops := [] } }
        else st
      let st2 :=
        if st1.enc ≠ [] then
          let cur2 := { st1.cur with ops := st1.cur.ops ++ decrypt st1.enc }
          { st1 with codes := st1.codes ++ [cur2], cur := { cur2 with ops := [] }, enc := [] }
        else st1
      ({ st2 with cur :=
          { name := rest, active := decide (rest ∈ en), user_defined := ud, ops := [] } }, [])
    else
      match SplitString ' ' line with
      | [p0, p1] =>
        if p0.length = 8 ∧ p1.length = 8 then
          match parseHex p0, parseHex p1 with
          | some av, some vv =>
            ({ st with cur := { st.cur with ops := st.cur.ops ++ [⟨av, vv⟩] } }, [])
          | pa, pv =>
            (st, ["Action Replay Error: invalid AR code line: %s"] ++
              (if pa = none then ["The address is invalid"] else []) ++
              (if pv = none then ["The value is invalid"] else []))
        else
          match SplitString '-' line with
          | [q0, q1, q2] =>
            if q0.length = 4 ∧ q1.length = 4 ∧ q2.length = 5 then
              ({ st with enc := st.enc ++ [q0 ++ q1 ++ q2] }, [])
            else (st, [])
          | _ => (st, [])
      | _ =>
        match SplitString '-' line with
        | [q0, q1, q2] =>
          if q0.length = 4 ∧ q1.length = 4 ∧ q2.length = 5 then
            ({ st with enc := st.enc ++ [q0 ++ q1 ++ q2] }, [])
          else (st, [])
        | _ => (st, [])

/-- The `LoadCodes` line loop over a whole section, collecting the raised
messages. -/
def processLines (decrypt : List Str → List AREntry) (en : List Str) (ud : Bool) :
    PSt → List Str → PSt × List String
  | st, [] => (st, [])
  | st, l :: ls =>
    let r := processARLine decrypt en ud st l
    let r2 := processLines decrypt en ud r.1 ls
    (r2.1, r.2 ++ r2.2)

/-- End-of-section commit of `LoadCodes`: the in-progress plain code, then
the decrypted block appended to the (now possibly cleared) ops. -/
def finishSection (decrypt : List Str → List AREntry) (st : PSt) : List ARCode :=
  (st.codes ++ (if st.cur.ops ≠ [] then [st.cur] else [])) ++
    (if st.enc ≠ [] then [{ st.cur with ops := st.cur.ops ++ decrypt st.enc }] else [])

/-- One ini's contribution to `LoadCodes`: codes and raised messages. -/
def loadSection (decrypt : List Str → List AREntry) (en : List Str) (ud : Bool)
    (lines : List Str) : List ARCode × List String :=
  let r := processLines decrypt en ud initPSt lines
  (finishSection decrypt r.1, r.2)

/-- Source `LoadCodes`: enabled names come from the local ini's
`ActionReplay_Enabled` section; the global section is read first
(`user_defined = false`), then the local one (`user_defined = true`). -/
def LoadCodes (decrypt : List Str → List AREntry) (global localIni : IniFile) :
    List ARCode × List String :=
  let en := enabledNames localIni.arEnabled
  let rg := loadSection decrypt en false global.ar
  let rl := loadSection decrypt en true localIni.ar
  (rg.1 ++ rl.1, rg.2 ++ rl.2)

/-- Source `SaveCodes`: one pass over the codes, writing `$name` to
`ActionReplay_Enabled` for every active code and `$name` plus the rendered
ops to `ActionReplay` for every user-defined code. -/
def SaveCodes (codes : List ARCode) : IniFile :=
  { ar :=
      codes.foldr
        (fun c acc =>
          (if c.user_defined then ('$' :: c.name) :: c.ops.map renderOp else []) ++ acc) []
    arEnabled := codes.filterMap fun c => if c.active then some ('$' :: c.name) else none }

/-! ## Line-shape predicates and rendered forms -/

/-- A line with the two 8-character token shape of a plain instruction
line (hex validity not required). -/
def shape88 (l : Str) : Bool :=
  match SplitString ' ' l with
  | [p0, p1] => p0.length == 8 && p1.length == 8
  | _ => false

/-- A well-formed plain instruction line: two 8-character tokens that both
parse as hexadecimal. -/
def wfPlain (l : Str) : Bool :=
  match SplitString ' ' l with
  | [p0, p1] =>
    p0.length == 8 && p1.length == 8 && (parseHex p0).isSome && (parseHex p1).isSome
  | _ => false

/-- A well-formed encrypted line: dash-separated groups of sizes 4-4-5. -/
def wfEnc (l : Str) : Bool :=
  match SplitString '-' l with
  | [q0, q1, q2] => q0.length == 4 && q1.length == 4 && q2.length == 5
  | _ => false

/-- A line that is neither blank, nor a name line, nor a well-formed plain
instruction line, nor a well-formed encrypted line. -/
def MalformedLine (l : Str) : Prop :=
  l ≠ [] ∧ l.head? ≠ some '$' ∧ wfPlain l = false ∧ wfEnc l = false

/-- A line an `ActionReplay` listing of plain codes may contain: blank, a
name line, or a well-formed plain instruction line. -/
def GoodLine (l : Str) : Prop :=
  l = [] ∨ l.head? = some '$' ∨ wfPlain l = true

instance (l : Str) : Decidable (MalformedLine l) := by
  unfold MalformedLine
  infer_instance

instance (l : Str) : Decidable (GoodLine l) := by
  unfold GoodLine
  infer_instance

/-- The first non-blank line of the listing, when present, is a name line
(the grammar `entry := name_line (instr_line | enc_line)*`). -/
def firstIsName (ls : List Str) : Bool :=
  match (ls.dropWhile List.isEmpty).head? with
  | none => true
  | some l => l.head? == some '$'

/-- Text of one code as `SaveCodes` writes it: the name line followed by
the rendered ops. -/
def renderCode (c : ARCode) : List Str := ('$' :: c.name) :: c.ops.map renderOp

/-- Text of a code list as `SaveCodes` writes it. -/
def renderAll : List ARCode → List Str
  | [] => []
  | c :: cs => renderCode c ++ renderAll cs

/-- A code as it comes back from reparsing a saved listing: same name and
ops, active recomputed from the enabled-name set, user-defined. -/
def reActivate (en : List Str) (c : ARCode) : ARCode :=
  ⟨c.name, decide (c.name ∈ en), true, c.ops⟩

/-- The equality the round-trip law compares codes under: name, ordered
ops, and active status. -/
def codeEq (c d : ARCode) : Prop :=
  c.name = d.name ∧ c.ops = d.ops ∧ c.active = d.active

/-- Every op's fields fit in a u32 (true of every parsed op). -/
def OpsBound (ops : List AREntry) : Prop :=
  ∀ op ∈ ops, op.cmd_addr < 4294967296 ∧ op.value < 4294967296

/-- Shape of every code a plain listing parse commits: non-empty bounded
ops, active derived from the enabled-name set, user-defined from the
section's origin. -/
def PCode (en : List Str) (ud : Bool) (c : ARCode) : Prop :=
  c.ops ≠ [] ∧ OpsBound c.ops ∧ c.active = decide (c.name ∈ en) ∧ c.user_defined = ud

/-- Shape of the in-progress code once a name line has been seen. -/
def PCur (en : List Str) (ud : Bool) (c : ARCode) : Prop :=
  OpsBound c.ops ∧ c.active = decide (c.name ∈ en) ∧ c.user_defined = ud

/-- Parse-state invariant while processing a plain listing after its first
name line. -/
def Inv2 (en : List Str) (ud : Bool) (st : PSt) : Prop :=
  st.enc = [] ∧ (∀ c ∈ st.codes, PCode en ud c) ∧ PCur en ud st.cur

/-! ## Fixed instances used by concrete runs and witnesses -/

/-- Concrete stand-in for the abstracted float addition, used when running
codes that never reach the float case. -/
def faZero : Nat → Nat → Nat := fun _ _ => 0

/-- All-zero guest memory. -/
def memZero : Mem := fun _ => 0

/-- Guest memory holding `0xDE` at `0x80400000` and zero elsewhere. -/
def memDE : Mem := fun a => if a = 0x80400000 then 0xDE else 0

/-- A store invariant: every member of the active-code store is active. -/
def StoreInv (store : List ARCode) : Prop := ∀ c ∈ store, c.active = true

/-! ## Basic lemmas -/

theorem arSize_lt_four (a : Nat) : arSize a < 4 :=
  Nat.mod_lt _ (by norm_num)

theorem arSubtype_lt_four (a : Nat) : arSubtype a < 4 :=
  Nat.mod_lt _ (by norm_num)

theorem gcaddr_lt (a : Nat) : gcaddr a < 0x2000000 :=
  Nat.mod_lt _ (by norm_num)

theorem runLoop_skip_pos (fa : Nat → Nat → Nat) (e : AREntry) (rest : List AREntry)
    (doFill doCopy : Bool) (skip : Int) (vl : Nat) (m : Mem) (h : 0 < skip) :
    (RunCodeLoop fa (e :: rest) doFill doCopy skip vl m).1 =
      (RunCodeLoop fa rest doFill doCopy (skip - 1) vl m).1 := by
  have h0 : skip ≠ 0 := by omega
  simp [RunCodeLoop, h0, h]

theorem runLoop_skip_all (fa : Nat → Nat → Nat) (e : AREntry) (rest : List AREntry)
    (doFill doCopy : Bool) (vl : Nat) (m : Mem) :
    (RunCodeLoop fa (e :: rest) doFill doCopy (-3) vl m).1 = (true, m) := by
  simp [RunCodeLoop]

theorem runLoop_skip_endif (fa : Nat → Nat → Nat) (e : AREntry) (rest : List AREntry)
    (doFill doCopy : Bool) (vl : Nat) (m : Mem)
    (h1 : e.cmd_addr = 0) (h2 : e.value = 0x40000000) :
    (RunCodeLoop fa (e :: rest) doFill doCopy (-2) vl m).1 =
      (RunCodeLoop fa rest doFill doCopy 0 vl m).1 := by
  simp [RunCodeLoop, h1, h2]

theorem runLoop_skip_until (fa : Nat → Nat → Nat) (e : AREntry) (rest : List AREntry)
    (doFill doCopy : Bool) (vl : Nat) (m : Mem)
    (h : ¬(e.cmd_addr = 0 ∧ e.value = 0x40000000)) :
    (RunCodeLoop fa (e :: rest) doFill doCopy (-2) vl m).1 =
      (RunCodeLoop fa rest doFill doCopy (-2) vl m).1 := by
  simp [RunCodeLoop, h]

theorem runLoop_skip_nat (fa : Nat → Nat → Nat) (doFill doCopy : Bool) (vl : Nat) :
    ∀ (ops : List AREntry) (k : Nat) (m : Mem),
      (RunCodeLoop fa ops doFill doCopy (k : Int) vl m).1 =
        (RunCodeLoop fa (ops.drop k) doFill doCopy 0 vl m).1 := by
  intro ops
  induction ops with
  | nil => intro k m; cases k <;> simp [RunCodeLoop]
  | cons e rest ih =>
    intro k m
    cases k with
    | zero => simp
    | succ k =>
      have hpos : (0 : Int) < ((k + 1 : Nat) : Int) := by positivity
      rw [runLoop_skip_pos fa e rest doFill doCopy _ vl m hpos]
      have hcast : ((k + 1 : Nat) : Int) - 1 = (k : Int) := by push_cast; ring
      rw [hcast, ih k m]
      simp

theorem runActiveList_sublist (fa : Nat → Nat → Nat) :
    ∀ (codes : List ARCode) (m : Mem), List.Sublist ((runActiveList fa codes m).1.1) codes := by
  intro codes
  induction codes with
  | nil => intro m; simp [runActiveList]
  | cons c cs ih =>
    intro m
    simp only [runActiveList]
    by_cases h : (RunCodeLocked fa c m).1.1
    · simp only [h, if_true]
      exact (ih _).cons₂ c
    · simp only [h, if_false]
      exact (ih _).cons c

/-! ## Claim theorems: interpreter -/

/-- Claim C9: the decoded size field is always one of 0..3, and each of
those values is an explicit case of RAM Write & Fill, Write to Pointer, Add
and Conditional, so none of these operations can ever return failure
because of the size field; only Fill-and-Slide, which handles sizes 0..2,
rejects a size (witnessed at size 3). -/
theorem c9_size_cases_total :
    (∀ a d m, (Subtype_RamWriteAndFill a d m).1.1 = true) ∧
    (∀ a d m, (Subtype_WriteToPointer a d m).1.1 = true) ∧
    (∀ fa a d m, (Subtype_AddCode fa a d m).1.1 = true) ∧
    (∀ a d sk m, (ConditionalCode a d sk m).1.1 = true) ∧
    (ZeroCode_FillAndSlide 0x06000000 0 0 memZero).1.1 = false := by
  refine ⟨?_, ?_, ?_, ?_, by decide⟩
  · intro a d m
    have h4 := arSize_lt_four a
    generalize hs : arSize a = s at h4
    interval_cases s <;> simp [Subtype_RamWriteAndFill, hs]
  · intro a d m
    have h4 := arSize_lt_four a
    generalize hs : arSize a = s at h4
    interval_cases s <;> simp [Subtype_WriteToPointer, hs]
  · intro fa a d m
    have h4 := arSize_lt_four a
    generalize hs : arSize a = s at h4
    interval_cases s <;> simp [Subtype_AddCode, hs]
  · intro a d sk m
    have h4 := arSize_lt_four a
    have h4' := arSubtype_lt_four a
    generalize hs : arSize a = s at h4
    generalize ht : arSubtype a = t at h4'
    interval_cases s <;> interval_cases t <;>
      · simp only [ConditionalCode, hs, ht]
        split <;> simp_all

/-- Claim C10: members of the active-code store are always active:
`ApplyCodes` installs only active codes (in order), `AddCode` appends only
active codes, and the per-tick pass only removes codes (its survivor list
is a sublist of the store), so the invariant is preserved by every store
operation. -/
theorem c10_store_invariant :
    (∀ en codes store, StoreInv store → StoreInv (ApplyCodes en codes store)) ∧
    (∀ codes store, List.Sublist (ApplyCodes true codes store) codes) ∧
    (∀ en c store, StoreInv store → StoreInv (AddCode en c store)) ∧
    (∀ c store, c.active = false → AddCode true c store = store) ∧
    (∀ fa codes m, List.Sublist ((runActiveList fa codes m).1.1) codes) ∧
    (∀ fa store m, StoreInv store → StoreInv ((runActiveList fa store m).1.1)) := by
  refine ⟨?_, ?_, ?_, ?_, ?_, ?_⟩
  · intro en codes store hst c hc
    cases en with
    | true =>
      simp only [ApplyCodes, if_true] at hc
      exact (List.mem_filter.mp hc).2
    | false =>
      simp only [ApplyCodes, Bool.false_eq_true, if_false] at hc
      exact hst c hc
  · intro codes store
    simp only [ApplyCodes, if_true]
    exact List.filter_sublist codes
  · intro en c store hst x hx
    cases en with
    | true =>
      simp only [AddCode, if_true] at hx
      by_cases hc : c.active
      · simp only [hc, if_true, List.mem_append, List.mem_singleton] at hx
        rcases hx with hx | rfl
        · exact hst x hx
        · exact hc
      · simp only [hc, Bool.false_eq_true, if_false] at hx
        exact hst x hx
    | false =>
      simp only [AddCode, Bool.false_eq_true, if_false] at hx
      exact hst x hx
  · intro c store hc
    simp [AddCode, hc]
  · intro fa codes m
    exact runActiveList_sublist fa codes m
  · intro fa store m hst c hc
    exact hst c ((runActiveList_sublist fa store m).subset hc)

/-- Witness for C10 at concrete inputs: an active and an inactive code
against the empty store. -/
theorem c10_store_invariant_witness :
    StoreInv (ApplyCodes true [⟨['A'], true, true, [⟨0, 0⟩]⟩, ⟨['B'], false, true, []⟩] []) ∧
    List.Sublist (ApplyCodes true [⟨['A'], true, true, [⟨0, 0⟩]⟩] [])
      [⟨['A'], true, true, [⟨0, 0⟩]⟩] ∧
    StoreInv (AddCode true ⟨['A'], true, true, [⟨0, 0⟩]⟩ []) ∧
    AddCode true ⟨['B'], false, true, []⟩ [] = [] ∧
    StoreInv ((runActiveList faZero [⟨['A'], true, true, [⟨0, 0⟩]⟩] memZero).1.1) :=
  ⟨c10_store_invariant.1 true _ [] (fun c hc => absurd hc (List.not_mem_nil c)),
   c10_store_invariant.2.1 _ [],
   c10_store_invariant.2.2.1 true _ [] (fun c hc => absurd hc (List.not_mem_nil c)),
   c10_store_invariant.2.2.2.1 _ [] rfl,
   c10_store_invariant.2.2.2.2.2 faZero _ memZero
     (fun c hc => by
       simp only [List.mem_singleton] at hc
       subst hc
       rfl)⟩

/-- Claim C8: the per-tick pass is a deterministic function of the active
code list and the initial guest memory: two passes started from the same
memory (whatever the internal-log contents and logging flags) keep the same
codes and produce identical final guest memory. -/
theorem c8_tick_deterministic (fa : Nat → Nat → Nat) (codes : List ARCode)
    (e1 e2 : Env) (h : e1.mem = e2.mem) :
    (RunAllActivePass fa codes e1).1 = (RunAllActivePass fa codes e2).1 ∧
      (RunAllActivePass fa codes e1).2.mem = (RunAllActivePass fa codes e2).2.mem := by
  constructor <;> simp [RunAllActivePass, h]

/-- Witness for C8 at a concrete input: two environments sharing memory but
differing in log contents and both logging flags. -/
theorem c8_tick_deterministic_witness :
    (RunAllActivePass faZero [⟨['X'], true, true, [⟨0x00100003, 0x50⟩]⟩] ⟨memZero, [], true, false⟩).1 =
      (RunAllActivePass faZero [⟨['X'], true, true, [⟨0x00100003, 0x50⟩]⟩]
        ⟨memZero, ["stale"], false, true⟩).1 ∧
    (RunAllActivePass faZero [⟨['X'], true, true, [⟨0x00100003, 0x50⟩]⟩]
        ⟨memZero, [], true, false⟩).2.mem =
      (RunAllActivePass faZero [⟨['X'], true, true, [⟨0x00100003, 0x50⟩]⟩]
        ⟨memZero, ["stale"], false, true⟩).2.mem :=
  c8_tick_deterministic faZero _ ⟨memZero, [], true, false⟩ ⟨memZero, ["stale"], false, true⟩ rfl

/-- Claim C1 counterexample: the op `(0x04002500, 0x00000001)` — whose
effective address `0x80002500` lies in `[0x80002000, 0x80003000)` and whose
decoded `gcaddr` is `0x2500` — is NOT caught by the self-modification
guard, because the guard compares the raw command word (here `0x04002500`)
against `[0x2000, 0x3000)`: the interpreter performs a 32-bit write of `1`
at `0x80002500` and returns success. -/
theorem c1_guard_counterexample :
    gcaddr 0x04002500 = 0x2500 ∧
    GCAddress 0x04002500 = 0x80002500 ∧
    (RunCodeLocked faZero ⟨['G'], true, true, [⟨0x04002500, 1⟩]⟩ memZero).1.1 = true ∧
    (RunCodeLocked faZero ⟨['G'], true, true, [⟨0x04002500, 1⟩]⟩ memZero).1.2 0x80002503 = 1 ∧
    memZero 0x80002503 = 0 := by
  refine ⟨by decide, by decide, by decide, by decide, rfl⟩

/-- Claim C1 as amended: the self-modification guard fires exactly when the
RAW command word lies in `[0x2000, 0x3000)` (equivalently, when `gcaddr`
lies in that range and the size, type and subtype fields are all zero); for
such an instruction, reached with no skip pending and no pending composite,
the interpreter returns failure with guest memory untouched, and the
failing code is dropped from the active set by the per-tick pass. -/
theorem c1_guard_amended :
    (∀ fa (e : AREntry) rest vl m, 0x2000 ≤ e.cmd_addr → e.cmd_addr < 0x3000 →
      (RunCodeLoop fa (e :: rest) false false 0 vl m).1 = (false, m)) ∧
    (∀ (a : Nat), (0x2000 ≤ a ∧ a < 0x3000) ↔
      (0x2000 ≤ gcaddr a ∧ gcaddr a < 0x3000 ∧ arSize a = 0 ∧ arType a = 0 ∧ arSubtype a = 0 ∧
        a = gcaddr a)) ∧
    (∀ fa c cs m, (RunCodeLocked fa c m).1.1 = false →
      (runActiveList fa (c :: cs) m).1.1 =
        (runActiveList fa cs ((RunCodeLocked fa c m).1.2)).1.1) := by
  refine ⟨?_, ?_, ?_⟩
  · intro fa e rest vl m h1 h2
    have hg : 0x2000 ≤ e.cmd_addr ∧ e.cmd_addr < 0x3000 := ⟨h1, h2⟩
    simp [RunCodeLoop, hg]
  · intro a
    constructor
    · rintro ⟨h1, h2⟩
      have hga : gcaddr a = a := Nat.mod_eq_of_lt (by omega)
      refine ⟨by omega, by omega, ?_, ?_, ?_, hga.symm⟩
      · unfold arSize; omega
      · unfold arType; omega
      · unfold arSubtype; omega
    · rintro ⟨h1, h2, _, _, _, ha⟩
      omega
  · intro fa c cs m h
    simp [runActiveList, h]

/-- Witness for C1's amended theorem: the raw command word `0x00002500`
with value `1` fails without writing and the code is removed. -/
theorem c1_guard_amended_witness :
    (RunCodeLoop faZero [⟨0x00002500, 1⟩] false false 0 0 memZero).1 = (false, memZero) ∧
    ((0x2000 ≤ 0x00002500 ∧ 0x00002500 < 0x3000) ↔
      (0x2000 ≤ gcaddr 0x00002500 ∧ gcaddr 0x00002500 < 0x3000 ∧ arSize 0x00002500 = 0 ∧
        arType 0x00002500 = 0 ∧ arSubtype 0x00002500 = 0 ∧ 0x00002500 = gcaddr 0x00002500)) ∧
    (runActiveList faZero [⟨['G'], true, true, [⟨0x00002500, 1⟩]⟩] memZero).1.1 =
      (runActiveList faZero []
        ((RunCodeLocked faZero ⟨['G'], true, true, [⟨0x00002500, 1⟩]⟩ memZero).1.2)).1.1 :=
  ⟨c1_guard_amended.1 faZero ⟨0x00002500, 1⟩ [] 0 memZero (by decide) (by decide),
   c1_guard_amended.2.1 0x00002500,
   c1_guard_amended.2.2 faZero ⟨['G'], true, true, [⟨0x00002500, 1⟩]⟩ [] memZero (by decide)⟩

/-- Claim C4: while `skip_count = SKIP_UNTIL_ENDIF = -2`, the raw entry
`(0, 0x40000000)` resets the skip counter to zero and is itself consumed
with no guest-memory write (processing resumes at the next entry), while
any other entry is skipped with no side effect and the counter stays
`-2`. -/
theorem c4_endif_handling :
    (∀ fa (e : AREntry) rest doFill doCopy vl m,
      e.cmd_addr = 0 → e.value = 0x40000000 →
      (RunCodeLoop fa (e :: rest) doFill doCopy (-2) vl m).1 =
        (RunCodeLoop fa rest doFill doCopy 0 vl m).1) ∧
    (∀ fa (e : AREntry) rest doFill doCopy vl m,
      ¬(e.cmd_addr = 0 ∧ e.value = 0x40000000) →
      (RunCodeLoop fa (e :: rest) doFill doCopy (-2) vl m).1 =
        (RunCodeLoop fa rest doFill doCopy (-2) vl m).1) :=
  ⟨fun fa e rest doFill doCopy vl m h1 h2 =>
    runLoop_skip_endif fa e rest doFill doCopy vl m h1 h2,
   fun fa e rest doFill doCopy vl m h =>
    runLoop_skip_until fa e rest doFill doCopy vl m h⟩

/-- Witness for C4: the endif marker clears the skip, a non-endif entry is
skipped. -/
theorem c4_endif_handling_witness :
    (RunCodeLoop faZero [⟨0, 0x40000000⟩, ⟨0x00100003, 0x50⟩] false false (-2) 0 memZero).1 =
      (RunCodeLoop faZero [⟨0x00100003, 0x50⟩] false false 0 0 memZero).1 ∧
    (RunCodeLoop faZero [⟨0x00100003, 0x50⟩] false false (-2) 0 memZero).1 =
      (RunCodeLoop faZero [] false false (-2) 0 memZero).1 :=
  ⟨c4_endif_handling.1 faZero ⟨0, 0x40000000⟩ [⟨0x00100003, 0x50⟩] false false 0 memZero rfl rfl,
   c4_endif_handling.2 faZero ⟨0x00100003, 0x50⟩ [] false false 0 memZero (by decide)⟩

/-- Claim C3: a conditional whose sized comparison holds leaves the skip
counter unchanged (zero); a failed comparison sets it from the subtype
(`0 ↦ 1`, `1 ↦ 2`, `2 ↦ -2 = SKIP_UNTIL_ENDIF`, `3 ↦ -3 = SKIP_ALL`); a
positive skip counter `k` skips exactly the next `k` entries with no side
effect; and under `SKIP_ALL` the interpreter returns success immediately at
the next entry. -/
theorem c3_conditional_skip :
    (∀ a d sk m, condCheck a d m = true → (ConditionalCode a d sk m).1 = (true, sk)) ∧
    (∀ a d sk m, condCheck a d m = false →
      ((arSubtype a = 0 → (ConditionalCode a d sk m).1 = (true, 1)) ∧
       (arSubtype a = 1 → (ConditionalCode a d sk m).1 = (true, 2)) ∧
       (arSubtype a = 2 → (ConditionalCode a d sk m).1 = (true, -2)) ∧
       (arSubtype a = 3 → (ConditionalCode a d sk m).1 = (true, -3)))) ∧
    (∀ fa ops doFill doCopy vl (k : Nat) m,
      (RunCodeLoop fa ops doFill doCopy (k : Int) vl m).1 =
        (RunCodeLoop fa (ops.drop k) doFill doCopy 0 vl m).1) ∧
    (∀ fa (e : AREntry) rest doFill doCopy vl m,
      (RunCodeLoop fa (e :: rest) doFill doCopy (-3) vl m).1 = (true, m)) := by
  have hcc : ∀ a d sk m, (ConditionalCode a d sk m).1 =
      (if condCheck a d m then (true, sk)
       else match arSubtype a with
         | 0 => (true, 1)
         | 1 => (true, 2)
         | 2 => (true, -2)
         | 3 => (true, -3)
         | _ + 4 => (false, sk)) := by
    intro a d sk m
    have h4 := arSize_lt_four a
    have h4' := arSubtype_lt_four a
    generalize hs : arSize a = s at h4
    generalize ht : arSubtype a = t at h4'
    interval_cases s <;> interval_cases t <;>
      simp only [ConditionalCode, condCheck, hs, ht] <;>
      split <;> simp_all
  refine ⟨?_, ?_, ?_, ?_⟩
  · intro a d sk m h
    rw [hcc, if_pos h]
  · intro a d sk m h
    refine ⟨?_, ?_, ?_, ?_⟩ <;> intro ht <;> rw [hcc, if_neg (by simp [h]), ht]
  · intro fa ops doFill doCopy vl k m
    exact runLoop_skip_nat fa doFill doCopy vl ops k m
  · intro fa e rest doFill doCopy vl m
    exact runLoop_skip_all fa e rest doFill doCopy vl m

/-- Witness for C3 at concrete inputs: `0x08000000` decodes to an 8-bit
equality conditional with subtype 0; against zero memory the comparison
with operand 0 holds and with operand 1 fails; `0xC8000000` has subtype 3. -/
theorem c3_conditional_skip_witness :
    (ConditionalCode 0x08000000 0 0 memZero).1 = (true, 0) ∧
    (ConditionalCode 0x08000000 1 0 memZero).1 = (true, 1) ∧
    (ConditionalCode 0xC8000000 1 0 memZero).1 = (true, -3) ∧
    (RunCodeLoop faZero [⟨0x00100003, 0x50⟩, ⟨0, 0⟩] false false ((1 : Nat) : Int) 0 memZero).1 =
      (RunCodeLoop faZero [⟨0, 0⟩] false false 0 0 memZero).1 ∧
    (RunCodeLoop faZero [⟨0x00100003, 0x50⟩] false false (-3) 0 memZero).1 = (true, memZero) :=
  ⟨c3_conditional_skip.1 0x08000000 0 0 memZero (by decide),
   (c3_conditional_skip.2.1 0x08000000 1 0 memZero (by decide)).1 (by decide),
   (c3_conditional_skip.2.1 0xC8000000 1 0 memZero (by decide)).2.2.2 (by decide),
   c3_conditional_skip.2.2.1 faZero [⟨0x00100003, 0x50⟩, ⟨0, 0⟩] false false 0 1 memZero,
   c3_conditional_skip.2.2.2 faZero ⟨0x00100003, 0x50⟩ [] false false 0 memZero⟩

/-! ## Fill and copy loop characterisations -/

theorem fill8_mem_eq (v : Nat) :
    ∀ (n a : Nat) (m : Mem) (x : Nat), a + n ≤ U32M →
      (fill8 v n a m).1 x = if a ≤ x ∧ x < a + n then v % 256 else m x := by
  intro n
  induction n with
  | zero =>
    intro a m x h
    rw [if_neg (by omega)]
    rfl
  | succ n ih =>
    intro a m x h
    have step : (fill8 v (n + 1) a m).1 = (fill8 v n (a + 1) (HostWrite_U8 v a m)).1 := rfl
    rw [step, ih (a + 1) _ x (by omega)]
    have ha : a % U32M = a := Nat.mod_eq_of_lt (by unfold U32M at h ⊢; omega)
    simp only [HostWrite_U8, ha]
    by_cases h1 : a + 1 ≤ x ∧ x < a + 1 + n
    · rw [if_pos h1, if_pos (by omega)]
    · rw [if_neg h1]
      by_cases h2 : x = a
      · rw [if_pos h2, if_pos (by omega)]
      · rw [if_neg h2, if_neg (by omega)]

theorem copyLoop_mem_eq :
    ∀ (n src dest : Nat) (m : Mem) (x : Nat),
      src + n ≤ U32M → dest + n ≤ U32M → (dest + n ≤ src ∨ src + n ≤ dest) →
      (copyLoop n src dest m).1 x =
        if dest ≤ x ∧ x < dest + n then m (src + (x - dest)) % 256 else m x := by
  intro n
  induction n with
  | zero =>
    intro src dest m x h1 h2 h3
    rw [if_neg (by omega)]
    rfl
  | succ n ih =>
    intro src dest m x h1 h2 h3
    have step : (copyLoop (n + 1) src dest m).1 =
        (copyLoop n (src + 1) (dest + 1) (HostWrite_U8 (HostRead_U8 src m) dest m)).1 := rfl
    rw [step, ih (src + 1) (dest + 1) _ x (by omega) (by omega) (by omega)]
    have hd : dest % U32M = dest := Nat.mod_eq_of_lt (by unfold U32M at *; omega)
    have hs : src % U32M = src := Nat.mod_eq_of_lt (by unfold U32M at *; omega)
    simp only [HostWrite_U8, HostRead_U8, hd, hs]
    by_cases hin : dest + 1 ≤ x ∧ x < dest + 1 + n
    · rw [if_pos hin]
      have hne : ¬(src + 1 + (x - (dest + 1)) = dest) := by omega
      rw [if_neg hne, if_pos (by omega)]
      have harg : src + 1 + (x - (dest + 1)) = src + (x - dest) := by omega
      rw [harg]
    · rw [if_neg hin]
      by_cases hx : x = dest
      · rw [if_pos hx, if_pos (by omega)]
        have harg : src + (x - dest) = src := by omega
        rw [harg]
        omega
      · rw [if_neg hx, if_neg (by omega)]

theorem runLoop_normal (fa : Nat → Nat → Nat) (e : AREntry) (rest : List AREntry)
    (vl : Nat) (m : Mem)
    (h1 : ¬(0x2000 ≤ e.cmd_addr ∧ e.cmd_addr < 0x3000)) (h2 : ¬(e.cmd_addr = 0))
    (h3 : arType e.cmd_addr = 0) (h4 : (NormalCode fa e.cmd_addr e.value m).1.1 = true) :
    (RunCodeLoop fa (e :: rest) false false 0 vl m).1 =
      (RunCodeLoop fa rest false false 0 vl ((NormalCode fa e.cmd_addr e.value m).1.2)).1 := by
  simp [RunCodeLoop, h1, h2, h3, h4]

/-- Applying `NormalCode` to the single op of scenario S1 is the 8-bit fill
of `repeat + 1 = 0x0A01` bytes of `0xFF` starting at `0x80100003`. -/
theorem normal_s1_eq (fa : Nat → Nat → Nat) (m : Mem) :
    (NormalCode fa 0x00100003 0x000A00FF m).1 =
      (true, (fill8 0xFF 0x0A01 0x80100003 m).1) := by
  have h : (NormalCode fa 0x00100003 0x000A00FF m).1 =
      (true, (fill8 (0x000A00FF &&& 0xFF) (0x000A00FF >>> 8 + 1) (GCAddress 0x00100003) m).1) :=
    rfl
  rw [h, show (0x000A00FF &&& 0xFF : Nat) = 0xFF from by decide,
    show (0x000A00FF >>> 8 + 1 : Nat) = 0x0A01 from by decide,
    show GCAddress 0x00100003 = 0x80100003 from by decide]

/-- Running the single op of scenario S1 is the 8-bit fill of
`repeat + 1 = 0x0A01` bytes of `0xFF` starting at `0x80100003`. -/
theorem runCodeLocked_s1_eq (fa : Nat → Nat → Nat) (nm : Str) (ab ub : Bool) (m : Mem) :
    (RunCodeLocked fa ⟨nm, ab, ub, [⟨0x00100003, 0x000A00FF⟩]⟩ m).1 =
      (true, (fill8 0xFF 0x0A01 0x80100003 m).1) := by
  have hrc : (RunCodeLocked fa ⟨nm, ab, ub, [⟨0x00100003, 0x000A00FF⟩]⟩ m).1 =
      (RunCodeLoop fa [⟨0x00100003, 0x000A00FF⟩] false false 0 0 m).1 := rfl
  rw [hrc, runLoop_normal fa ⟨0x00100003, 0x000A00FF⟩ [] 0 m (by decide) (by decide) (by decide)
    (by rw [congrArg Prod.fst (normal_s1_eq fa m)])]
  rw [show (RunCodeLoop fa [] false false 0 0 ((NormalCode fa 0x00100003 0x000A00FF m).1.2)).1 =
    (true, (NormalCode fa 0x00100003 0x000A00FF m).1.2) from rfl]
  rw [congrArg Prod.snd (normal_s1_eq fa m)]

/-- Success-flag component of `runCodeLocked_s1_eq`. -/
theorem runCodeLocked_s1_fst (fa : Nat → Nat → Nat) (nm : Str) (ab ub : Bool) (m : Mem) :
    (RunCodeLocked fa ⟨nm, ab, ub, [⟨0x00100003, 0x000A00FF⟩]⟩ m).1.1 = true := by
  have h := congrArg Prod.fst (runCodeLocked_s1_eq fa nm ab ub m)
  dsimp only at h
  exact h

/-- Memory component of `runCodeLocked_s1_eq`. -/
theorem runCodeLocked_s1_snd (fa : Nat → Nat → Nat) (nm : Str) (ab ub : Bool) (m : Mem) :
    (RunCodeLocked fa ⟨nm, ab, ub, [⟨0x00100003, 0x000A00FF⟩]⟩ m).1.2 =
      (fill8 0xFF 0x0A01 0x80100003 m).1 := by
  have h := congrArg Prod.snd (runCodeLocked_s1_eq fa nm ab ub m)
  dsimp only at h
  exact h

/-! ## Claim theorems: concrete scenarios -/

/-- Claim C5 counterexample: after running the code
`{ops: [(0x00100003, 0x000A00FF)]}` on zero memory the byte at
`0x80100000` is still `0` (the claim asserts `0xFF`) and the byte at
`0x8010000B` has become `0xFF` (the claim asserts it is unchanged, i.e.
`0`): the op decodes to an 8-bit fill of `0x0A01` bytes starting at
`0x80100003`, not an 11-byte fill starting at `0x80100000`. -/
theorem c5_fill_counterexample :
    (RunCodeLocked faZero ⟨['S'], true, true, [⟨0x00100003, 0x000A00FF⟩]⟩ memZero).1.2
        0x80100000 = 0 ∧
    (RunCodeLocked faZero ⟨['S'], true, true, [⟨0x00100003, 0x000A00FF⟩]⟩ memZero).1.2
        0x8010000B = 0xFF ∧
    memZero 0x80100000 = 0 ∧ memZero 0x8010000B = 0 := by
  have h0 := runCodeLocked_s1_snd faZero ['S'] true true memZero
  refine ⟨?_, ?_, rfl, rfl⟩ <;>
    · rw [h0, fill8_mem_eq 0xFF 0x0A01 0x80100003 memZero _ (by norm_num [U32M])]
      norm_num [memZero]

/-- Claim C5 as amended: one run of `{ops: [(0x00100003, 0x000A00FF)]}`
succeeds and fills the `0x0A01` bytes at `0x80100003 ..= 0x80100A03` with
`0xFF`, leaving every byte below `0x80100003` (in particular
`0x80100000 ..= 0x80100002`) and above `0x80100A03` unchanged. -/
theorem c5_fill_amended (fa : Nat → Nat → Nat) (nm : Str) (ab ub : Bool) (m : Mem) :
    (RunCodeLocked fa ⟨nm, ab, ub, [⟨0x00100003, 0x000A00FF⟩]⟩ m).1.1 = true ∧
    (∀ x, 0x80100003 ≤ x → x ≤ 0x80100A03 →
      (RunCodeLocked fa ⟨nm, ab, ub, [⟨0x00100003, 0x000A00FF⟩]⟩ m).1.2 x = 0xFF) ∧
    (∀ x, x < 0x80100003 →
      (RunCodeLocked fa ⟨nm, ab, ub, [⟨0x00100003, 0x000A00FF⟩]⟩ m).1.2 x = m x) ∧
    (∀ x, 0x80100A03 < x →
      (RunCodeLocked fa ⟨nm, ab, ub, [⟨0x00100003, 0x000A00FF⟩]⟩ m).1.2 x = m x) := by
  have h0 := runCodeLocked_s1_snd fa nm ab ub m
  have h1 := runCodeLocked_s1_fst fa nm ab ub m
  refine ⟨h1, ?_, ?_, ?_⟩ <;> intro x hx <;>
    first
      | (intro hx2
         rw [h0, fill8_mem_eq 0xFF 0x0A01 0x80100003 m _ (by norm_num [U32M]),
           if_pos (by omega)])
      | (rw [h0, fill8_mem_eq 0xFF 0x0A01 0x80100003 m _ (by norm_num [U32M]),
           if_neg (by omega)])

/-- Witness for C5's amended theorem at concrete points of zero memory. -/
theorem c5_fill_amended_witness :
    (RunCodeLocked faZero ⟨['S'], true, true, [⟨0x00100003, 0x000A00FF⟩]⟩ memZero).1.1 = true ∧
    (RunCodeLocked faZero ⟨['S'], true, true, [⟨0x00100003, 0x000A00FF⟩]⟩ memZero).1.2
        0x80100005 = 0xFF ∧
    (RunCodeLocked faZero ⟨['S'], true, true, [⟨0x00100003, 0x000A00FF⟩]⟩ memZero).1.2
        0x80100001 = memZero 0x80100001 :=
  ⟨(c5_fill_amended faZero ['S'] true true memZero).1,
   (c5_fill_amended faZero ['S'] true true memZero).2.1 0x80100005 (by norm_num) (by norm_num),
   (c5_fill_amended faZero ['S'] true true memZero).2.2.1 0x80100001 (by norm_num)⟩

theorem runLoop_memcopy_dispatch (fa : Nat → Nat → Nat) (zc aw dd : Nat)
    (rest : List AREntry) (vl : Nat) (m : Mem)
    (h1 : zc >>> 29 = 4) (h2 : (zc >>> 25) &&& 0x03 = 3) :
    (RunCodeLoop fa (⟨0, zc⟩ :: ⟨aw, dd⟩ :: rest) false false 0 vl m).1 =
      (if (ZeroCode_MemoryCopy zc aw dd m).1.1 then
        (RunCodeLoop fa rest false false 0 zc ((ZeroCode_MemoryCopy zc aw dd m).1.2)).1
      else (false, (ZeroCode_MemoryCopy zc aw dd m).1.2)) := by
  have hstep1 : RunCodeLoop fa (⟨0, zc⟩ :: ⟨aw, dd⟩ :: rest) false false 0 vl m =
      (let pre : Log := ["--- Running Code: %08x %08x ---", "Doing Zero Code %08x"]
       match zc >>> 29 with
       | 0 => ((true, m), pre ++ ["ZCode: End Of Codes"])
       | 2 =>
         let r := RunCodeLoop fa (⟨aw, dd⟩ :: rest) false false 0 vl m
         (r.1, pre ++ ["ZCode: Normal execution of codes"] ++ r.2)
       | 3 => ((false, m), pre ++ ["Zero 3 code not supported"])
       | 4 =>
         if (zc >>> 25) &&& 0x03 = 3 then
           let r := RunCodeLoop fa (⟨aw, dd⟩ :: rest) false true 0 zc m
           (r.1, pre ++ ["ZCode: Memory Copy"] ++ r.2)
         else
           let r := RunCodeLoop fa (⟨aw, dd⟩ :: rest) true false 0 zc m
           (r.1, pre ++ ["ZCode: Fill And Slide"] ++ r.2)
       | 1 => ((false, m), pre ++ ["Zero code unknown to Dolphin: %08x"])
       | _ + 5 => ((false, m), pre ++ ["Zero code unknown to Dolphin: %08x"])) := rfl
  have hstep2 : RunCodeLoop fa (⟨aw, dd⟩ :: rest) false true 0 zc m =
      (let r := ZeroCode_MemoryCopy zc aw dd m
       if r.1.1 then
         let r2 := RunCodeLoop fa rest false false 0 zc r.1.2
         (r2.1, "--- Running Code: %08x %08x ---" :: "Doing Memory Copy" :: r.2 ++ r2.2)
       else
         ((false, r.1.2), "--- Running Code: %08x %08x ---" :: "Doing Memory Copy" :: r.2)) :=
    rfl
  rw [hstep1, h1]
  simp only [h2, if_pos, hstep2]
  split <;> rfl

/-- Claim C2 counterexample: the Memory Copy composite
`[(0, 0x86500000), (0x00400000, 0x00000100)]` satisfies the claim's
premises (`data & 0xFF0000 = 0`, `data >> 24 = 0`) and has
`data & 0x7FFF = 0x100 = 256`, yet on a memory whose source byte at
`0x80400000` is `0xDE` it copies nothing: the destination byte at
`0x80500000` is still `0` after a successful run, because the byte count is
truncated to `u8` (`(0x100 : u8) = 0`). -/
theorem c2_memcopy_counterexample :
    ((0x100 : Nat) &&& 0xFF0000 = 0) ∧ ((0x100 : Nat) >>> 24 = 0) ∧
    ((0x100 : Nat) &&& 0x7FFF = 0x100) ∧
    ((0x86500000 : Nat) &&& 0xF9FFFFFF = 0x80500000) ∧
    GCAddress 0x00400000 = 0x80400000 ∧
    (RunCodeLoop faZero [⟨0, 0x86500000⟩, ⟨0x00400000, 0x100⟩] false false 0 0 memDE).1.1 =
      true ∧
    (RunCodeLoop faZero [⟨0, 0x86500000⟩, ⟨0x00400000, 0x100⟩] false false 0 0 memDE).1.2
      0x80500000 = 0 ∧
    memDE 0x80400000 = 0xDE := by decide

/-- Claim C2 as amended: a zero-code with `zcode = 4` and bits 25..26 both
set selects Memory Copy with `val_last` stored, and the follow-up
instruction with `(data & 0xFF0000) = 0` and `(data >> 24) = 0` succeeds,
copying exactly `num_bytes = (data & 0x7FFF) mod 256` bytes (the `u8`
truncation of `data & 0x7FFF`), one byte at a time, from
`src = addr.effective_addr` to `dest = val_last & ~0x06000000`: for
non-overlapping ranges, every byte `dest + i` (`i < num_bytes`) ends equal
to the initial byte at `src + i` and all other bytes are unchanged. -/
theorem c2_memcopy_amended :
    (∀ fa zc aw dd rest vl m, zc >>> 29 = 4 → (zc >>> 25) &&& 0x03 = 3 →
      (RunCodeLoop fa (⟨0, zc⟩ :: ⟨aw, dd⟩ :: rest) false false 0 vl m).1 =
        (if (ZeroCode_MemoryCopy zc aw dd m).1.1 then
          (RunCodeLoop fa rest false false 0 zc ((ZeroCode_MemoryCopy zc aw dd m).1.2)).1
        else (false, (ZeroCode_MemoryCopy zc aw dd m).1.2))) ∧
    (∀ vl aw d m, d &&& 0xFF0000 = 0 → d >>> 24 = 0 →
      ((vl &&& 0xF9FFFFFF) + (d &&& 0x7FFF) % 0x100 ≤ GCAddress aw ∨
        GCAddress aw + (d &&& 0x7FFF) % 0x100 ≤ vl &&& 0xF9FFFFFF) →
      (∀ y, m y < 256) →
      (ZeroCode_MemoryCopy vl aw d m).1.1 = true ∧
      (∀ i, i < (d &&& 0x7FFF) % 0x100 →
        (ZeroCode_MemoryCopy vl aw d m).1.2 ((vl &&& 0xF9FFFFFF) + i) = m (GCAddress aw + i)) ∧
      (∀ x, x < vl &&& 0xF9FFFFFF ∨ (vl &&& 0xF9FFFFFF) + (d &&& 0x7FFF) % 0x100 ≤ x →
        (ZeroCode_MemoryCopy vl aw d m).1.2 x = m x)) := by
  constructor
  · exact runLoop_memcopy_dispatch
  · intro vl aw d m h16 h24 hdisj h8
    have hz : (ZeroCode_MemoryCopy vl aw d m).1 =
        (true, (copyLoop ((d &&& 0x7FFF) % 0x100) (GCAddress aw) (vl &&& 0xF9FFFFFF) m).1) := by
      simp [ZeroCode_MemoryCopy, h16, h24]
    have h1 := congrArg Prod.fst hz
    dsimp only at h1
    have h0 := congrArg Prod.snd hz
    dsimp only at h0
    have hsrc : GCAddress aw < 0x82000000 := by
      have := gcaddr_lt aw
      unfold GCAddress
      omega
    have hn : (d &&& 0x7FFF) % 0x100 < 0x100 := Nat.mod_lt _ (by norm_num)
    have hdest : vl &&& 0xF9FFFFFF ≤ 0xF9FFFFFF := Nat.and_le_right
    refine ⟨h1, ?_, ?_⟩
    · intro i hi
      rw [h0, copyLoop_mem_eq _ _ _ m _ (by unfold U32M; omega) (by unfold U32M; omega)
        (by omega), if_pos (by omega)]
      have harg : GCAddress aw + ((vl &&& 0xF9FFFFFF) + i - (vl &&& 0xF9FFFFFF)) =
          GCAddress aw + i := by omega
      rw [harg, Nat.mod_eq_of_lt (h8 _)]
    · intro x hx
      rw [h0, copyLoop_mem_eq _ _ _ m _ (by unfold U32M; omega) (by unfold U32M; omega)
        (by omega), if_neg (by omega)]

/-- Witness for C2's amended theorem: the composite
`[(0, 0x86500000), (0x00400000, 5)]` copies five bytes from `0x80400000`
to `0x80500000`; in particular the `0xDE` source byte arrives at the
destination and a byte outside the range is unchanged. -/
theorem c2_memcopy_amended_witness :
    ((RunCodeLoop faZero [⟨0, 0x86500000⟩, ⟨0x00400000, 5⟩] false false 0 0 memDE).1 =
      (if (ZeroCode_MemoryCopy 0x86500000 0x00400000 5 memDE).1.1 then
        (RunCodeLoop faZero [] false false 0 0x86500000
          ((ZeroCode_MemoryCopy 0x86500000 0x00400000 5 memDE).1.2)).1
      else (false, (ZeroCode_MemoryCopy 0x86500000 0x00400000 5 memDE).1.2))) ∧
    (ZeroCode_MemoryCopy 0x86500000 0x00400000 5 memDE).1.1 = true ∧
    (ZeroCode_MemoryCopy 0x86500000 0x00400000 5 memDE).1.2 ((0x86500000 &&& 0xF9FFFFFF) + 0) =
      memDE (GCAddress 0x00400000 + 0) ∧
    (ZeroCode_MemoryCopy 0x86500000 0x00400000 5 memDE).1.2 0x80600000 = memDE 0x80600000 :=
  have h8 : ∀ y, memDE y < 256 := by
    intro y
    unfold memDE
    split <;> norm_num
  ⟨c2_memcopy_amended.1 faZero 0x86500000 0x00400000 5 [] 0 memDE (by decide) (by decide),
   (c2_memcopy_amended.2 0x86500000 0x00400000 5 memDE (by decide) (by decide)
      (Or.inr (by decide)) h8).1,
   (c2_memcopy_amended.2 0x86500000 0x00400000 5 memDE (by decide) (by decide)
      (Or.inr (by decide)) h8).2.1 0 (by decide),
   (c2_memcopy_amended.2 0x86500000 0x00400000 5 memDE (by decide) (by decide)
      (Or.inr (by decide)) h8).2.2 0x80600000 (Or.inr (by decide))⟩

/-! ## Parser lemmas -/

theorem processARLine_malformed (decrypt : List Str → List AREntry) (en : List Str)
    (ud : Bool) (st : PSt) (l : Str) (hm : MalformedLine l) :
    (processARLine decrypt en ud st l).1 = st ∧
      ((processARLine decrypt en ud st l).2 ≠ [] ↔ shape88 l = true) := by
  obtain ⟨hne, hhd, hpl, hen⟩ := hm
  cases l with
  | nil => exact absurd rfl hne
  | cons c rest =>
    have hc : ¬(c = '$') := by
      intro h
      exact hhd (by simp [h])
    simp only [processARLine, if_neg hc]
    unfold wfPlain at hpl
    unfold wfEnc at hen
    unfold shape88
    generalize hsp : SplitString ' ' (c :: rest) = ps at hpl ⊢
    generalize hdp : SplitString '-' (c :: rest) = qs at hen ⊢
    rcases ps with _ | ⟨p0, _ | ⟨p1, _ | ⟨p2, ptl⟩⟩⟩ <;>
      rcases qs with _ | ⟨q0, _ | ⟨q1, _ | ⟨q2, _ | ⟨q3, qtl⟩⟩⟩⟩ <;>
      (try dsimp only at hpl hen ⊢) <;>
      first
        | (simp_all; done)
        | (rw [if_neg (by simp_all)]; simp_all; done)
        | (by_cases hlen : List.length p0 = 8 ∧ List.length p1 = 8
           · rw [if_pos hlen]
             rcases hp0 : parseHex p0 with _ | v0 <;> rcases hp1 : parseHex p1 with _ | v1 <;>
               simp_all
           · rw [if_neg hlen]
             first
               | (rw [if_neg (by simp_all)]; simp_all; done)
               | simp_all)

theorem processLines_insert_malformed (decrypt : List Str → List AREntry) (en : List Str)
    (ud : Bool) (l : Str) (hm : MalformedLine l) :
    ∀ (pre post : List Str) (st : PSt),
      (processLines decrypt en ud st (pre ++ l :: post)).1 =
        (processLines decrypt en ud st (pre ++ post)).1 := by
  intro pre
  induction pre with
  | nil =>
    intro post st
    simp only [List.nil_append, processLines]
    rw [(processARLine_malformed decrypt en ud st l hm).1]
  | cons p pre ih =>
    intro post st
    simp only [List.cons_append, processLines]
    exact ih post ((processARLine decrypt en ud st p).1)

/-! ## Claim theorems: parser error handling -/

/-- Claim C7 counterexample: the line `xyz` is neither blank, nor a name
line, nor a well-formed plain line, nor a well-formed encrypted line, yet
parsing a section containing only it raises NO user-visible error (the
message list is empty) while the line is skipped (no code results):
the parser only reports for lines with the two 8-character token shape. -/
theorem c7_malformed_counterexample :
    MalformedLine ['x', 'y', 'z'] ∧
      LoadCodes (fun _ => []) ⟨[], []⟩ ⟨[['x', 'y', 'z']], []⟩ = ([], []) := by
  constructor
  · exact ⟨by decide, by decide, by decide, by decide⟩
  · decide

/-- Claim C7 as amended: a malformed line (neither blank, nor name, nor
well-formed plain, nor well-formed encrypted) never aborts the parse: the
parse state — including every previously parsed code — is unchanged and
the remaining lines are processed as if the line were absent; an error is
reported for it exactly when it has the two 8-character token shape (with
some token failing hexadecimal parsing). -/
theorem c7_malformed_lines :
    (∀ decrypt en ud st l, MalformedLine l →
      (processARLine decrypt en ud st l).1 = st ∧
        ((processARLine decrypt en ud st l).2 ≠ [] ↔ shape88 l = true)) ∧
    (∀ decrypt en ud l, MalformedLine l → ∀ pre post st,
      (processLines decrypt en ud st (pre ++ l :: post)).1 =
        (processLines decrypt en ud st (pre ++ post)).1) :=
  ⟨fun decrypt en ud st l hm => processARLine_malformed decrypt en ud st l hm,
   fun decrypt en ud l hm pre post st =>
    processLines_insert_malformed decrypt en ud l hm pre post st⟩

/-- Witness for C7's amended theorem: the shapeless line `xyz` leaves the
state unchanged with no error; the 8+8-shaped line `0000000G 00000001`
leaves the state unchanged and reports. -/
theorem c7_malformed_lines_witness :
    ((processARLine (fun _ => []) [] true initPSt ['x', 'y', 'z']).1 = initPSt ∧
      ((processARLine (fun _ => []) [] true initPSt ['x', 'y', 'z']).2 ≠ [] ↔
        shape88 ['x', 'y', 'z'] = true)) ∧
    ((processARLine (fun _ => []) [] true initPSt
        "0000000G 00000001".data).1 = initPSt ∧
      ((processARLine (fun _ => []) [] true initPSt "0000000G 00000001".data).2 ≠ [] ↔
        shape88 "0000000G 00000001".data = true)) ∧
    (processLines (fun _ => []) [] true initPSt ([] ++ ['x', 'y', 'z'] :: [])).1 =
      (processLines (fun _ => []) [] true initPSt ([] ++ [])).1 :=
  ⟨c7_malformed_lines.1 (fun _ => []) [] true initPSt ['x', 'y', 'z']
      ⟨by decide, by decide, by decide, by decide⟩,
   c7_malformed_lines.1 (fun _ => []) [] true initPSt "0000000G 00000001".data
      ⟨by decide, by decide, by decide, by decide⟩,
   c7_malformed_lines.2 (fun _ => []) [] true ['x', 'y', 'z']
      ⟨by decide, by decide, by decide, by decide⟩ [] [] initPSt⟩

/-! ## Hexadecimal rendering round-trip -/

theorem hexVal_le (c : Char) : hexVal c ≤ 15 := by
  unfold hexVal
  split <;> norm_num

theorem hexVal_toHexCh (n : Nat) (h : n < 16) : hexVal (toHexCh n) = n := by
  interval_cases n <;> rfl

theorem isHex_toHexCh (n : Nat) : isHexDigitCh (toHexCh n) = true := by
  unfold toHexCh
  split <;> rfl

theorem isHex_ne_dollar (c : Char) (h : isHexDigitCh c = true) : ¬(c = '$') := by
  intro hc
  subst hc
  simp [isHexDigitCh] at h

theorem isHex_ne_space (c : Char) (h : isHexDigitCh c = true) : ¬(c = ' ') := by
  intro hc
  subst hc
  simp [isHexDigitCh] at h

theorem toHex_length (k : Nat) : ∀ n, (toHex k n).length = k := by
  induction k with
  | zero => intro n; rfl
  | succ k ih =>
    intro n
    simp [toHex, ih]

theorem toHex_all_hex (k : Nat) : ∀ n, (toHex k n).all isHexDigitCh = true := by
  induction k with
  | zero => intro n; rfl
  | succ k ih =>
    intro n
    simp [toHex, List.all_append, ih, isHex_toHexCh]

theorem toHex_foldl (k : Nat) :
    ∀ n, (toHex k n).foldl (fun acc c => acc * 16 + hexVal c) 0 = n % 16 ^ k := by
  induction k with
  | zero => intro n; simp [toHex, Nat.mod_one]
  | succ k ih =>
    intro n
    have hfold : (toHex (k + 1) n).foldl (fun acc c => acc * 16 + hexVal c) 0 =
        (toHex k (n / 16)).foldl (fun acc c => acc * 16 + hexVal c) 0 * 16 +
          hexVal (toHexCh (n % 16)) := by
      simp [toHex, List.foldl_append]
    rw [hfold, ih, hexVal_toHexCh _ (Nat.mod_lt _ (by norm_num))]
    have hpos : 0 < 16 ^ k := Nat.pos_pow_of_pos k (by norm_num)
    have hb : n % 16 < 16 := Nat.mod_lt _ (by norm_num)
    have ha : n / 16 % 16 ^ k < 16 ^ k := Nat.mod_lt _ hpos
    have h1 : n % 16 ^ (k + 1) = 16 * (n / 16 % 16 ^ k) + n % 16 := by
      have hM : (16 : Nat) ^ (k + 1) = 16 * 16 ^ k := by rw [pow_succ, Nat.mul_comm]
      have hqr : 16 * (n / 16) + n % 16 = n := Nat.div_add_mod n 16
      calc n % 16 ^ (k + 1) = (16 * (n / 16) + n % 16) % (16 * 16 ^ k) := by rw [hM, hqr]
        _ = ((16 * (n / 16)) % (16 * 16 ^ k) + (n % 16) % (16 * 16 ^ k)) % (16 * 16 ^ k) :=
            Nat.add_mod _ _ _
        _ = (16 * (n / 16 % 16 ^ k) + n % 16) % (16 * 16 ^ k) := by
            rw [Nat.mul_mod_mul_left, Nat.mod_eq_of_lt (lt_of_lt_of_le hb (by nlinarith))]
        _ = 16 * (n / 16 % 16 ^ k) + n % 16 := Nat.mod_eq_of_lt (by nlinarith)
    omega

theorem parseHex_toHex8 (n : Nat) (h : n < 4294967296) : parseHex (toHex 8 n) = some n := by
  unfold parseHex
  rw [if_pos ⟨by
      intro hnil
      have := toHex_length 8 n
      rw [hnil] at this
      simp at this, toHex_all_hex 8 n⟩]
  rw [toHex_foldl 8 n]
  congr 1
  exact Nat.mod_eq_of_lt (by norm_num at h ⊢; omega)

theorem foldl_hex_bound : ∀ (s : Str) (acc : Nat),
    s.foldl (fun acc c => acc * 16 + hexVal c) acc < (acc + 1) * 16 ^ s.length := by
  intro s
  induction s with
  | nil => intro acc; simp
  | cons c cs ih =>
    intro acc
    have h1 := ih (acc * 16 + hexVal c)
    have h2 := hexVal_le c
    calc (c :: cs).foldl (fun acc c => acc * 16 + hexVal c) acc
        = cs.foldl (fun acc c => acc * 16 + hexVal c) (acc * 16 + hexVal c) := rfl
      _ < (acc * 16 + hexVal c + 1) * 16 ^ cs.length := h1
      _ ≤ ((acc + 1) * 16) * 16 ^ cs.length := by
          have : acc * 16 + hexVal c + 1 ≤ (acc + 1) * 16 := by omega
          exact Nat.mul_le_mul_right _ this
      _ = (acc + 1) * 16 ^ (c :: cs).length := by
          simp [List.length_cons, pow_succ]
          ring

theorem parseHex_some_lt (s : Str) (v : Nat) (h : parseHex s = some v) : v < 16 ^ s.length := by
  unfold parseHex at h
  split at h
  · have hv := Option.some.inj h
    have := foldl_hex_bound s 0
    omega
  · exact absurd h (by simp)

/-! ## SplitString on rendered instruction lines -/

theorem splitCh_ne_nil (dl : Char) : ∀ s : Str, splitCh dl s ≠ [] := by
  intro s
  cases s with
  | nil => simp [splitCh]
  | cons c cs =>
    simp only [splitCh]
    rcases h : splitCh dl cs with _ | ⟨p, ps⟩
    · simp
    · by_cases hc : c = dl <;> simp [hc]

theorem splitCh_no_delim (dl : Char) : ∀ s : Str, (∀ c ∈ s, ¬(c = dl)) →
    splitCh dl s = [s] := by
  intro s
  induction s with
  | nil => intro h; rfl
  | cons c cs ih =>
    intro h
    have hc : ¬(c = dl) := h c (by simp)
    have hcs := ih (fun x hx => h x (by simp [hx]))
    simp only [splitCh, hcs]
    rw [if_neg hc]

theorem splitCh_append (dl : Char) : ∀ (xs ys : Str), (∀ c ∈ xs, ¬(c = dl)) →
    splitCh dl (xs ++ dl :: ys) = xs :: splitCh dl ys := by
  intro xs
  induction xs with
  | nil =>
    intro ys h
    show (match splitCh dl ys with
          | [] => [[]]
          | p :: ps => if dl = dl then [] :: p :: ps else (dl :: p) :: ps) =
        [] :: splitCh dl ys
    rcases hy : splitCh dl ys with _ | ⟨p, ps⟩
    · exact absurd hy (splitCh_ne_nil dl ys)
    · simp
  | cons c cs ih =>
    intro ys h
    have hc : ¬(c = dl) := h c (by simp)
    have hcs := ih ys (fun x hx => h x (by simp [hx]))
    show (match splitCh dl (cs ++ dl :: ys) with
          | [] => [[]]
          | p :: ps => if c = dl then [] :: p :: ps else (c :: p) :: ps) =
        (c :: cs) :: splitCh dl ys
    rw [hcs]
    simp [hc]

theorem SplitString_two (dl : Char) (xs ys : Str) (hx : ∀ c ∈ xs, ¬(c = dl))
    (hy : ∀ c ∈ ys, ¬(c = dl)) (hyne : ys ≠ []) :
    SplitString dl (xs ++ dl :: ys) = [xs, ys] := by
  unfold SplitString
  rw [if_neg (by simp)]
  have hys : (dl :: ys).getLast? = some (ys.getLast hyne) := by
    rw [List.getLast?_eq_getLast _ (by simp)]
    congr 1
    exact List.getLast_cons hyne
  have hlast : (xs ++ dl :: ys).getLast? = some (ys.getLast hyne) := by
    rw [List.getLast?_append, hys]
    rfl
  have hlne : ¬((xs ++ dl :: ys).getLast? = some dl) := by
    rw [hlast]
    intro hsome
    have heq := Option.some.inj hsome
    exact hy dl (heq ▸ List.getLast_mem hyne) rfl
  rw [if_neg hlne, splitCh_append dl xs ys hx, splitCh_no_delim dl ys hy]

/-! ## Parsing rendered lines -/

theorem processARLine_renderOp (decrypt : List Str → List AREntry) (en : List Str)
    (ud : Bool) (st : PSt) (op : AREntry)
    (ha : op.cmd_addr < 4294967296) (hv : op.value < 4294967296) :
    processARLine decrypt en ud st (renderOp op) =
      ({ st with cur := { st.cur with ops := st.cur.ops ++ [op] } }, []) := by
  have hxhex : ∀ c ∈ toHex 8 op.cmd_addr, isHexDigitCh c = true := fun c hc =>
    List.all_eq_true.mp (toHex_all_hex 8 op.cmd_addr) c hc
  have hyhex : ∀ c ∈ toHex 8 op.value, isHexDigitCh c = true := fun c hc =>
    List.all_eq_true.mp (toHex_all_hex 8 op.value) c hc
  have hsplit : SplitString ' ' (renderOp op) = [toHex 8 op.cmd_addr, toHex 8 op.value] := by
    unfold renderOp
    exact SplitString_two ' ' _ _
      (fun c hc => isHex_ne_space c (hxhex c hc))
      (fun c hc => isHex_ne_space c (hyhex c hc))
      (by
        intro h
        have := toHex_length 8 op.value
        rw [h] at this
        simp at this)
  rcases h8 : toHex 8 op.cmd_addr with _ | ⟨hd, tl⟩
  · exfalso
    have := toHex_length 8 op.cmd_addr
    rw [h8] at this
    simp at this
  · have hhd : isHexDigitCh hd = true := hxhex hd (by rw [h8]; simp)
    have hline : renderOp op = hd :: (tl ++ ' ' :: toHex 8 op.value) := by
      unfold renderOp
      rw [h8]
      simp
    have hs2 := hsplit
    rw [hline] at hs2
    rw [hline]
    simp only [processARLine, if_neg (isHex_ne_dollar hd hhd), hs2]
    rw [if_pos ⟨toHex_length 8 op.cmd_addr, toHex_length 8 op.value⟩,
      parseHex_toHex8 _ ha, parseHex_toHex8 _ hv]

theorem processARLine_name_noenc (decrypt : List Str → List AREntry) (en : List Str)
    (ud : Bool) (st : PSt) (nm : Str) (henc : st.enc = []) :
    processARLine decrypt en ud st ('$' :: nm) =
      ({ cur := ⟨nm, decide (nm ∈ en), ud, []⟩, enc := [],
         codes := st.codes ++ (if st.cur.ops = [] then [] else [st.cur]) }, []) := by
  by_cases hops : st.cur.ops = [] <;>
    simp [processARLine, henc, hops]

theorem processARLine_wfPlain (decrypt : List Str → List AREntry) (en : List Str)
    (ud : Bool) (st : PSt) (c : Char) (rest : Str)
    (hc : ¬(c = '$')) (hl : wfPlain (c :: rest) = true) :
    ∃ op : AREntry, op.cmd_addr < 4294967296 ∧ op.value < 4294967296 ∧
      processARLine decrypt en ud st (c :: rest) =
        ({ st with cur := { st.cur with ops := st.cur.ops ++ [op] } }, []) := by
  unfold wfPlain at hl
  simp only [processARLine, if_neg hc]
  generalize hsp : SplitString ' ' (c :: rest) = ps at hl ⊢
  rcases ps with _ | ⟨p0, _ | ⟨p1, _ | ⟨p2, tl⟩⟩⟩
  · simp at hl
  · simp at hl
  · dsimp only at hl ⊢
    simp only [Bool.and_eq_true, beq_iff_eq] at hl
    obtain ⟨⟨⟨hl0, hl1⟩, hs0⟩, hs1⟩ := hl
    rcases hp0 : parseHex p0 with _ | av
    · rw [hp0] at hs0
      simp at hs0
    rcases hp1 : parseHex p1 with _ | vv
    · rw [hp1] at hs1
      simp at hs1
    refine ⟨⟨av, vv⟩, ?_, ?_, ?_⟩
    · have := parseHex_some_lt p0 av hp0
      rw [hl0] at this
      norm_num at this
      exact this
    · have := parseHex_some_lt p1 vv hp1
      rw [hl1] at this
      norm_num at this
      exact this
    · rw [if_pos ⟨hl0, hl1⟩]
  · simp at hl

/-! ## Listing fold invariants -/

theorem processLines_good (decrypt : List Str → List AREntry) (en : List Str) :
    ∀ (lines : List Str) (st : PSt), (∀ l ∈ lines, GoodLine l) → Inv2 en true st →
      Inv2 en true (processLines decrypt en true st lines).1 := by
  intro lines
  induction lines with
  | nil => intro st _ h; exact h
  | cons l ls ih =>
    intro st hg hinv
    have hstep : (processLines decrypt en true st (l :: ls)).1 =
        (processLines decrypt en true (processARLine decrypt en true st l).1 ls).1 := rfl
    rw [hstep]
    refine ih _ (fun x hx => hg x (by simp [hx])) ?_
    rcases hg l (by simp) with hblank | hname | hplain
    · subst hblank
      exact hinv
    · rcases l with _ | ⟨c, rest⟩
      · exact hinv
      · have hc : c = '$' := by
          simp only [List.head?_cons, Option.some.injEq] at hname
          exact hname
        subst hc
        rw [processARLine_name_noenc decrypt en true st rest hinv.1]
        refine ⟨rfl, ?_, ⟨fun op hop => by simp at hop, rfl, rfl⟩⟩
        intro x hx
        simp only [List.mem_append] at hx
        rcases hx with hx | hx
        · exact hinv.2.1 x hx
        · by_cases hops : st.cur.ops = []
          · rw [hops] at hx
            simp at hx
          · rw [if_neg hops] at hx
            simp only [List.mem_singleton] at hx
            subst hx
            exact ⟨hops, hinv.2.2⟩
    · rcases l with _ | ⟨c, rest⟩
      · exact hinv
      · by_cases hc : c = '$'
        · subst hc
          rw [processARLine_name_noenc decrypt en true st rest hinv.1]
          refine ⟨rfl, ?_, ⟨fun op hop => by simp at hop, rfl, rfl⟩⟩
          intro x hx
          simp only [List.mem_append] at hx
          rcases hx with hx | hx
          · exact hinv.2.1 x hx
          · by_cases hops : st.cur.ops = []
            · rw [hops] at hx
              simp at hx
            · rw [if_neg hops] at hx
              simp only [List.mem_singleton] at hx
              subst hx
              exact ⟨hops, hinv.2.2⟩
        · obtain ⟨op, hb1, hb2, heq⟩ :=
            processARLine_wfPlain decrypt en true st c rest hc hplain
          rw [heq]
          refine ⟨hinv.1, hinv.2.1, ?_, hinv.2.2.2.1, hinv.2.2.2.2⟩
          intro x hx
          simp only [List.mem_append, List.mem_singleton] at hx
          rcases hx with hx | hx
          · exact hinv.2.2.1 x hx
          · subst hx
            exact ⟨hb1, hb2⟩

theorem processLines_blanks (decrypt : List Str → List AREntry) (en : List Str) (ud : Bool) :
    ∀ (bl rest : List Str) (st : PSt), (∀ l ∈ bl, l = []) →
      (processLines decrypt en ud st (bl ++ rest)).1 =
        (processLines decrypt en ud st rest).1 := by
  intro bl
  induction bl with
  | nil => intro rest st _; rfl
  | cons b bs ih =>
    intro rest st h
    have hb : b = [] := h b (by simp)
    subst hb
    have hstep : (processLines decrypt en ud st (([] : Str) :: (bs ++ rest))).1 =
        (processLines decrypt en ud st (bs ++ rest)).1 := rfl
    rw [List.cons_append, hstep]
    exact ih rest st (fun x hx => h x (by simp [hx]))

theorem finishSection_good (decrypt : List Str → List AREntry) (en : List Str) (st : PSt)
    (hinv : Inv2 en true st) : ∀ c ∈ finishSection decrypt st, PCode en true c := by
  intro c hc
  unfold finishSection at hc
  rw [hinv.1] at hc
  by_cases hops : st.cur.ops = []
  · simp [hops] at hc
    exact hinv.2.1 c hc
  · simp [hops] at hc
    rcases hc with hc | hc
    · exact hinv.2.1 c hc
    · subst hc
      exact ⟨hops, hinv.2.2⟩

theorem loadSection_good (decrypt : List Str → List AREntry) (en : List Str)
    (lines : List Str) (hg : ∀ l ∈ lines, GoodLine l) (hf : firstIsName lines = true) :
    ∀ c ∈ (loadSection decrypt en true lines).1, PCode en true c := by
  have hsplit := (List.takeWhile_append_dropWhile (p := List.isEmpty) (l := lines)).symm
  have hblanks : ∀ l ∈ lines.takeWhile List.isEmpty, l = [] := by
    intro l hl
    have := List.mem_takeWhile_imp hl
    simpa [List.isEmpty_iff] using this
  intro c hc
  have hls : (loadSection decrypt en true lines).1 =
      finishSection decrypt (processLines decrypt en true initPSt lines).1 := rfl
  rw [hls] at hc
  rcases hdrop : lines.dropWhile List.isEmpty with _ | ⟨l0, rest⟩
  · rw [hsplit, hdrop] at hc
    rw [processLines_blanks decrypt en true _ [] initPSt hblanks] at hc
    simp [processLines, finishSection, initPSt] at hc
  · have hl0 : l0.head? = some '$' := by
      unfold firstIsName at hf
      rw [hdrop] at hf
      simpa using hf
    rcases l0 with _ | ⟨c0, nm⟩
    · simp at hl0
    · have hc0 : c0 = '$' := by simpa using hl0
      subst hc0
      rw [hsplit, hdrop] at hc
      rw [processLines_blanks decrypt en true _ _ initPSt hblanks] at hc
      have hstep : (processLines decrypt en true initPSt (('$' :: nm) :: rest)).1 =
          (processLines decrypt en true
            (processARLine decrypt en true initPSt ('$' :: nm)).1 rest).1 := rfl
      rw [hstep, processARLine_name_noenc decrypt en true initPSt nm rfl] at hc
      have hrest : ∀ l ∈ rest, GoodLine l := by
        intro l hl
        have hsub : List.Sublist (lines.dropWhile List.isEmpty) lines :=
          List.dropWhile_sublist _
        exact hg l (hsub.subset (by rw [hdrop]; simp [hl]))
      have hinv2 : Inv2 en true
          ({ cur := ⟨nm, decide (nm ∈ en), true, []⟩, enc := [],
             codes := initPSt.codes ++ (if initPSt.cur.ops = [] then [] else [initPSt.cur]) } :
            PSt) := by
        refine ⟨rfl, ?_, ⟨fun op hop => by simp at hop, rfl, rfl⟩⟩
        intro x hx
        simp [initPSt] at hx
      exact finishSection_good decrypt en _
        (processLines_good decrypt en rest _ hrest hinv2) c hc

/-! ## Reparsing a saved listing -/

theorem processLines_renderOps (decrypt : List Str → List AREntry) (en : List Str)
    (ud : Bool) : ∀ (ops : List AREntry) (rest : List Str) (st : PSt), OpsBound ops →
    processLines decrypt en ud st (List.map renderOp ops ++ rest) =
      processLines decrypt en ud
        { st with cur := { st.cur with ops := st.cur.ops ++ ops } } rest := by
  intro ops
  induction ops with
  | nil =>
    intro rest st _
    have hst : ({ st with cur := { st.cur with ops := st.cur.ops ++ [] } } : PSt) = st := by
      rw [List.append_nil]
    rw [List.map_nil, List.nil_append, hst]
  | cons op ops ih =>
    intro rest st h
    have hb := h op (by simp)
    have hstep : processLines decrypt en ud st (renderOp op :: (List.map renderOp ops ++ rest)) =
        (let r := processARLine decrypt en ud st (renderOp op)
         let r2 := processLines decrypt en ud r.1 (List.map renderOp ops ++ rest)
         (r2.1, r.2 ++ r2.2)) := rfl
    rw [List.map_cons, List.cons_append, hstep,
      processARLine_renderOp decrypt en ud st op hb.1 hb.2]
    dsimp only
    rw [ih _ _ (fun x hx => h x (by simp [hx]))]
    simp [List.append_assoc]

theorem processLines_renderAll (decrypt : List Str → List AREntry) (en : List Str) :
    ∀ (codes : List ARCode) (st : PSt), st.enc = [] →
      (∀ c ∈ codes, c.ops ≠ [] ∧ OpsBound c.ops) →
      finishSection decrypt (processLines decrypt en true st (renderAll codes)).1 =
        (st.codes ++ (if st.cur.ops = [] then [] else [st.cur])) ++
          List.map (reActivate en) codes := by
  intro codes
  induction codes with
  | nil =>
    intro st henc _
    show finishSection decrypt st = _
    unfold finishSection
    rw [henc]
    by_cases hops : st.cur.ops = [] <;> simp [hops]
  | cons c cs ih =>
    intro st henc hcodes
    have hc := hcodes c (by simp)
    have hstep : processLines decrypt en true st
        (('$' :: c.name) :: (List.map renderOp c.ops ++ renderAll cs)) =
        (let r := processARLine decrypt en true st ('$' :: c.name)
         let r2 := processLines decrypt en true r.1 (List.map renderOp c.ops ++ renderAll cs)
         (r2.1, r.2 ++ r2.2)) := rfl
    have hall : renderAll (c :: cs) = ('$' :: c.name) :: (List.map renderOp c.ops ++ renderAll cs) := by
      simp [renderAll, renderCode]
    rw [hall, hstep, processARLine_name_noenc decrypt en true st c.name henc]
    dsimp only
    rw [processLines_renderOps decrypt en true c.ops (renderAll cs) _ hc.2]
    dsimp only
    rw [ih _ rfl (fun x hx => hcodes x (by simp [hx]))]
    rw [show (([] : List AREntry) ++ c.ops) = c.ops from List.nil_append c.ops]
    rw [if_neg hc.1]
    have hre : (⟨c.name, decide (c.name ∈ en), true, c.ops⟩ : ARCode) = reActivate en c := rfl
    rw [hre]
    simp

theorem saveCodes_ar (codes : List ARCode) (h : ∀ c ∈ codes, c.user_defined = true) :
    (SaveCodes codes).ar = renderAll codes := by
  induction codes with
  | nil => rfl
  | cons c cs ih =>
    have hc := h c (by simp)
    show (if c.user_defined then ('$' :: c.name) :: c.ops.map renderOp else []) ++
        (SaveCodes cs).ar = renderAll (c :: cs)
    rw [hc, if_pos rfl, ih (fun x hx => h x (by simp [hx]))]
    simp [renderAll, renderCode]

theorem enabledNames_save (codes : List ARCode) :
    enabledNames ((SaveCodes codes).arEnabled) =
      codes.filterMap (fun c => if c.active then some c.name else none) := by
  induction codes with
  | nil => rfl
  | cons c cs ih =>
    simp only [SaveCodes, enabledNames, List.filterMap_cons] at ih ⊢
    by_cases hc : c.active <;> simp [hc, ih]

theorem active_fix (en : List Str) (codes : List ARCode)
    (hinv : ∀ c ∈ codes, c.active = decide (c.name ∈ en)) :
    ∀ c ∈ codes,
      decide (c.name ∈ codes.filterMap (fun c => if c.active then some c.name else none)) =
        c.active := by
  intro c hc
  by_cases ha : c.active = true
  · rw [ha]
    simp only [decide_eq_true_eq]
    rw [List.mem_filterMap]
    exact ⟨c, hc, by rw [ha]; simp⟩
  · have ha' : c.active = false := by
      cases h : c.active
      · rfl
      · exact absurd h ha
    rw [ha']
    simp only [decide_eq_false_iff_not, List.mem_filterMap]
    rintro ⟨d, hd, hdeq⟩
    by_cases hda : d.active
    · rw [if_pos hda] at hdeq
      have hname : d.name = c.name := Option.some.inj hdeq
      have h1 := hinv d hd
      have h2 := hinv c hc
      rw [hname, ← h2] at h1
      rw [← h1] at ha'
      rw [ha'] at hda
      exact Bool.false_ne_true (hda.symm ▸ rfl)
    · rw [if_neg hda] at hdeq
      exact Option.noConfusion hdeq

theorem forall₂_codeEq_map (f : ARCode → ARCode) (l : List ARCode)
    (h : ∀ c ∈ l, codeEq (f c) c) : List.Forall₂ codeEq (List.map f l) l := by
  induction l with
  | nil => exact List.Forall₂.nil
  | cons c cs ih =>
    exact List.Forall₂.cons (h c (by simp)) (ih (fun x hx => h x (by simp [hx])))

/-! ## Claim theorem: parser round-trip -/

/-- Claim C6: for a listing of solely user-defined, plain codes with no
malformed lines (grammar-conformant: the first non-blank line is a name
line, every line is blank, a name line, or a well-formed plain instruction
line, and the global ini contributes nothing), parsing, saving, and
reparsing the saved output yields a code list equal to the first parse
result under name, ops, and active-status equality.  The helpers
(`SplitString`, `TryParse`, ini sections) are modelled from the spec. -/
theorem c6_roundtrip (decrypt : List Str → List AREntry) (g loc : IniFile)
    (hg : g.ar = []) (hgood : ∀ l ∈ loc.ar, GoodLine l)
    (hfirst : firstIsName loc.ar = true) :
    List.Forall₂ codeEq (LoadCodes decrypt g (SaveCodes (LoadCodes decrypt g loc).1)).1
      (LoadCodes decrypt g loc).1 := by
  have hglobal : ∀ (en : List Str), (loadSection decrypt en false ([] : List Str)).1 = [] := by
    intro en
    rfl
  have hload : ∀ (l2 : IniFile), (LoadCodes decrypt g l2).1 =
      (loadSection decrypt (enabledNames l2.arEnabled) true l2.ar).1 := by
    intro l2
    show (loadSection decrypt (enabledNames l2.arEnabled) false g.ar).1 ++
        (loadSection decrypt (enabledNames l2.arEnabled) true l2.ar).1 = _
    rw [hg, hglobal, List.nil_append]
  have hinv := loadSection_good decrypt (enabledNames loc.arEnabled) loc.ar hgood hfirst
  rw [hload loc]
  rw [hload (SaveCodes (loadSection decrypt (enabledNames loc.arEnabled) true loc.ar).1)]
  have hud : ∀ c ∈ (loadSection decrypt (enabledNames loc.arEnabled) true loc.ar).1,
      c.user_defined = true := fun c hc => (hinv c hc).2.2.2
  have har := saveCodes_ar _ hud
  have hbounds : ∀ c ∈ (loadSection decrypt (enabledNames loc.arEnabled) true loc.ar).1,
      c.ops ≠ [] ∧ OpsBound c.ops := fun c hc => ⟨(hinv c hc).1, (hinv c hc).2.1⟩
  have hsec : (loadSection decrypt
      (enabledNames ((SaveCodes (loadSection decrypt (enabledNames loc.arEnabled) true
        loc.ar).1).arEnabled)) true
      ((SaveCodes (loadSection decrypt (enabledNames loc.arEnabled) true loc.ar).1).ar)).1 =
      List.map (reActivate (enabledNames ((SaveCodes (loadSection decrypt
        (enabledNames loc.arEnabled) true loc.ar).1).arEnabled)))
        (loadSection decrypt (enabledNames loc.arEnabled) true loc.ar).1 := by
    rw [har]
    have := processLines_renderAll decrypt
      (enabledNames ((SaveCodes (loadSection decrypt (enabledNames loc.arEnabled) true
        loc.ar).1).arEnabled))
      (loadSection decrypt (enabledNames loc.arEnabled) true loc.ar).1 initPSt rfl hbounds
    simpa [loadSection, initPSt] using this
  rw [hsec]
  apply forall₂_codeEq_map
  intro c hc
  refine ⟨rfl, rfl, ?_⟩
  show decide (c.name ∈ enabledNames ((SaveCodes _).arEnabled)) = c.active
  rw [enabledNames_save]
  exact active_fix (enabledNames loc.arEnabled) _
    (fun d hd => (hinv d hd).2.2.1) c hc

/-- Witness for C6 at a concrete two-code listing with one enabled code. -/
theorem c6_roundtrip_witness :
    List.Forall₂ codeEq
      (LoadCodes (fun _ => []) ⟨[], []⟩
        (SaveCodes (LoadCodes (fun _ => []) ⟨[], []⟩
          ⟨[['$', 'A'], "00100000 00000001".data, ['$', 'B'], "0010F004 0000A002".data],
            [['$', 'B']]⟩).1)).1
      (LoadCodes (fun _ => []) ⟨[], []⟩
        ⟨[['$', 'A'], "00100000 00000001".data, ['$', 'B'], "0010F004 0000A002".data],
          [['$', 'B']]⟩).1 :=
  c6_roundtrip (fun _ => []) ⟨[], []⟩
    ⟨[['$', 'A'], "00100000 00000001".data, ['$', 'B'], "0010F004 0000A002".data],
      [['$', 'B']]⟩ rfl (by decide) (by decide)

end AR
